import Mathlib

/-!
# Verification of the deep-research orchestration core

A shallow embedding, in Lean 4, of the core logic of the `deep_research`
Python package: the parameter auto-tuner (`auto_tuning.py`), the research
memory (`memory.py`), the content classifier (`content_classifier.py`),
the contradiction detector and the recursive orchestration loop
(`engine.py`), and the public entry point (`api.py`).

Modelling conventions:
* Python `str` values are modelled as Lean `String` / `List Char`;
  `str.lower` is modelled character-wise (the source only relies on
  ASCII case folding).
* Python `float` arithmetic is modelled with exact rationals `ℚ`;
  the properties proved here do not depend on rounding of binary floats.
* Python `int` is modelled as `ℤ`.
* Regular-expression matching (`re.finditer` / `re.findall`) is modelled
  by direct scanners that implement the leftmost-first backtracking
  semantics of the specific patterns appearing in the source.  For each
  pattern the greedy/lazy quantifier order is reproduced; where a
  quantifier admits no effective backtracking (a greedy `[a-z]+` that
  must be followed by a character outside `[a-z]`, for example) the
  scanner uses the maximal run directly.
* Wall-clock readings (thought-log timestamps, elapsed time) and external
  collaborators (search, scrape, LLM responses) are supplied by an
  explicit environment of oracles.
-/

/-! ## Character and string helpers -/

/-- `[A-Z]` of the source regexes (ASCII code points 65 to 90). -/
def isUpperAZ (c : Char) : Bool := 65 ≤ c.toNat && c.toNat ≤ 90

/-- `[a-z]` of the source regexes (ASCII code points 97 to 122). -/
def isLowerAZ (c : Char) : Bool := 97 ≤ c.toNat && c.toNat ≤ 122

/-- `[0-9]` (`\d`) of the source regexes. -/
def isDigit09 (c : Char) : Bool := 48 ≤ c.toNat && c.toNat ≤ 57

/-- Length of the maximal `[a-z]` run at the head of the list
(the extent taken by a greedy `[a-z]+` / `[a-z]*`). -/
def runLower : List Char → ℕ
  | [] => 0
  | c :: cs => if isLowerAZ c then runLower cs + 1 else 0

/-- Length of the maximal `[A-Z]` run at the head of the list. -/
def runUpper : List Char → ℕ
  | [] => 0
  | c :: cs => if isUpperAZ c then runUpper cs + 1 else 0

/-- Python `str.lower` on a character (ASCII case folding, as used by the
source on its keyword vocabularies). -/
def pyLowerChar (c : Char) : Char := c.toLower

/-- Python `str.lower` on a string, as a character list. -/
def pyLower (s : String) : List Char := s.data.map pyLowerChar

/-- Python substring containment `pat in s` on character lists. -/
def strIn (pat : List Char) : List Char → Bool
  | [] => pat.isEmpty
  | c :: cs => pat.isPrefixOf (c :: cs) || strIn pat cs

/-- Python whitespace set used by `str.split()` with no arguments. -/
def isPySpace (c : Char) : Bool :=
  c == ' ' || c == '\t' || c == '\n' || c == '\r' || c == '\x0b' || c == '\x0c'

/-- Fuel-driven worker for `pySplit` (the fuel is an upper bound on the
number of characters still to process; `pySplit` instantiates it with the
length of the list, which always suffices). -/
def pySplitF : ℕ → List Char → List (List Char)
  | 0, _ => []
  | _ + 1, [] => []
  | fuel + 1, c :: cs =>
    if isPySpace c then pySplitF fuel cs
    else (c :: cs.takeWhile (fun d => !isPySpace d)) ::
      pySplitF fuel (cs.dropWhile (fun d => !isPySpace d))

/-- Python `str.split()` with no arguments: split on runs of whitespace,
discarding empty pieces. -/
def pySplit (l : List Char) : List (List Char) := pySplitF l.length l

/-! ## AutoTuner (`auto_tuning.py`)

### `AutoTuner.analyze_question_complexity`

The entity pattern is
`([A-Z][a-z]+ [A-Z][a-z]+|[A-Z][a-z]+\.[A-Z][a-z]+|[A-Z][A-Z]+|[A-Z][a-z]+)`
and `len(re.findall(...))` counts its leftmost, non-overlapping matches.
`entityMatchAt l` returns the length of the match starting at the head of
`l` (if any), following the alternation priority and quantifier
greediness of the Python engine.  The greedy `[a-z]+` of the first two
alternatives is followed by a space or a dot, so backtracking inside it
cannot succeed and it always takes the maximal lowercase run; the final
`[a-z]+` and the `[A-Z]+` of the acronym alternative take their maximal
runs because nothing follows them. -/

def entityMatchAt : List Char → Option ℕ
  | [] => none
  | c :: cs =>
    if isUpperAZ c then
      if 0 < runLower cs then
        match cs.drop (runLower cs) with
        | sep :: u :: rest2 =>
          if (sep == ' ' || sep == '.') && isUpperAZ u && 0 < runLower rest2 then
            some (1 + runLower cs + 2 + runLower rest2)
          else some (1 + runLower cs)
        | _ => some (1 + runLower cs)
      else
        if 0 < runUpper cs then some (1 + runUpper cs) else none
    else none

/-- Fuel-driven worker for `entityCount`: scan left to right, counting
non-overlapping matches and resuming after each match (every match has
length at least 2, so fuel equal to the length of the list suffices). -/
def entityScanF : ℕ → List Char → ℕ
  | 0, _ => 0
  | _ + 1, [] => 0
  | fuel + 1, c :: cs =>
    match entityMatchAt (c :: cs) with
    | none => entityScanF fuel cs
    | some l => 1 + entityScanF fuel (cs.drop (l - 1))

/-- `len(re.findall(entity_pattern, query))`. -/
def entityCount (l : List Char) : ℕ := entityScanF l.length l

/-- Python `str.count` for the three-character literal `"and"`
(an occurrence of `"and"` cannot overlap another, so the greedy skip of
`str.count` counts exactly the occurrence positions). -/
def countAnd : List Char → ℕ
  | a :: b :: c :: rest =>
    if a == 'a' && b == 'n' && c == 'd' then 1 + countAnd rest
    else countAnd (b :: c :: rest)
  | _ => 0

/-- The fixed complexity vocabulary of `analyze_question_complexity`. -/
def complexity_keywords : List String :=
  ["compare", "contrast", "analyze", "evaluate",
   "synthesize", "implications", "impact", "effects",
   "trend", "development", "causes", "relationship"]

/-- Result dictionary of `AutoTuner.analyze_question_complexity`. -/
structure ComplexityMetrics where
  complexity_score : ℚ
  entity_count : ℕ
  aspect_count : ℕ
  complexity_keyword_count : ℕ
deriving Repr, DecidableEq

/-- `AutoTuner.analyze_question_complexity` (`auto_tuning.py`, lines 43-78):
entities by regex findall, aspects by counting `,`, `;` and `and`,
keywords by membership of the fixed vocabulary in the lowercased query;
score `min(1, (0.5·entities + 0.3·aspects + 0.7·keywords)/10)`. -/
def AutoTuner.analyze_question_complexity (query : String) : ComplexityMetrics :=
  let entities := entityCount query.data
  let aspects := query.data.count ',' + query.data.count ';' + countAnd query.data
  let keyword_count :=
    complexity_keywords.countP (fun w => strIn w.data (pyLower query))
  let complexity_score : ℚ :=
    (entities : ℚ) * 0.5 + (aspects : ℚ) * 0.3 + (keyword_count : ℚ) * 0.7
  { complexity_score := min 1 (complexity_score / 10)
    entity_count := entities
    aspect_count := aspects
    complexity_keyword_count := keyword_count }

/-- Python `round` (banker's rounding: ties go to the even integer). -/
def pyRound (x : ℚ) : ℤ :=
  let f := ⌊x⌋
  let r := x - (f : ℚ)
  if r < 1/2 then f
  else if 1/2 < r then f + 1
  else if Even f then f else f + 1

/-- `AutoTuner.determine_initial_parameters` (`auto_tuning.py`, lines 80-99). -/
def AutoTuner.determine_initial_parameters (max_depth max_breadth : ℤ)
    (metrics : ComplexityMetrics) : ℤ × ℤ :=
  let s := metrics.complexity_score
  (max 1 (min max_depth (pyRound (1 + s * ((max_depth : ℚ) - 1)))),
   max 2 (min max_breadth (pyRound (2 + s * ((max_breadth : ℚ) - 2)))))

/-- `AutoTuner.adjust_parameters` (`auto_tuning.py`, lines 101-139):
band deltas from `info_quality`, an extra `(-1, -2)` under time pressure,
then clamping. -/
def AutoTuner.adjust_parameters (max_depth max_breadth : ℤ)
    (current_depth current_breadth : ℤ)
    (info_quality time_usage_fraction : ℚ) : ℤ × ℤ :=
  let da : ℤ × ℤ :=
    if info_quality < 0.3 then (1, 2)
    else if 0.7 < info_quality then (-1, -1)
    else (0, 1)
  let da : ℤ × ℤ :=
    if 0.7 < time_usage_fraction then (da.1 - 1, da.2 - 2) else da
  (max 1 (min max_depth (current_depth + da.1)),
   max 2 (min max_breadth (current_breadth + da.2)))

/-! ### Research memory (`memory.py`) -/

/-- Contradiction record built by `ResearchMemory.add_contradiction`
(`memory.py`, lines 89-109).  The wall-clock `timestamp` field carries no
logic and is not modelled. -/
structure Contradiction where
  topic : String
  claim1 : String
  claim2 : String
  source1 : String := ""
  source2 : String := ""
deriving Repr, DecidableEq

/-- `AutoTuner.estimate_info_quality` (`auto_tuning.py`, lines 141-173). -/
def AutoTuner.estimate_info_quality (learnings : List String)
    (contradictions : List Contradiction) : ℚ :=
  if learnings = [] then 0
  else
    let avg_length : ℚ := ((learnings.map (fun l => (l.length : ℚ))).sum) / (learnings.length : ℚ)
    let length_score := min 1 (avg_length / 300)
    let contradiction_ratio : ℚ := (contradictions.length : ℚ) / (max 1 learnings.length : ℕ)
    let contradiction_score := max 0 (1 - contradiction_ratio * 2)
    let all_text : List Char := (" ".intercalate learnings).data
    let unique_words := ((pySplit (all_text.map pyLowerChar)).dedup).length
    let total_words := (pySplit all_text).length
    let diversity_score := min 1 ((unique_words : ℚ) / (max 1 total_words : ℕ) * 3)
    length_score * 0.3 + contradiction_score * 0.3 + diversity_score * 0.4

/-- `ResearchMemory.add_learning` (`memory.py`, lines 37-46), as its
action on the `learnings` list. -/
def ResearchMemory.add_learning (learnings : List String) (learning : String) : List String :=
  if learning ∈ learnings then learnings else learnings ++ [learning]

/-- `ResearchMemory.add_url` (`memory.py`, lines 58-66), as its action on
the `visited_urls` list. -/
def ResearchMemory.add_url (visited_urls : List String) (url : String) : List String :=
  if url ∈ visited_urls then visited_urls else visited_urls ++ [url]

/-! ## Regex scanning infrastructure shared by the classifier and the
contradiction detector -/

/-- A single ASCII apostrophe, used when rebuilding the message strings
of the source (which quote the matched span). -/
def apos : String := (Char.ofNat 39).toString

/-- Length of the maximal run of characters other than a newline at the
head of the list: a gap `.{0,n}` or `.*?` of the source regexes (where
`.` does not match a newline) must stay inside this run. -/
def runNonNL : List Char → ℕ
  | [] => 0
  | c :: cs => if c == '\n' then 0 else runNonNL cs + 1

/-- Try `f` at `n, n-1, ..., 0` and return the first success: the
attempt order of a greedy bounded gap `.{0,n}` under backtracking. -/
def tryDown {α : Type} (f : ℕ → Option α) : ℕ → Option α
  | 0 => f 0
  | g + 1 => (f (g + 1)).orElse (fun _ => tryDown f g)

/-- Try `f` at `0, 1, ..., n` and return the first success: the attempt
order of a lazy gap `.*?` under backtracking. -/
def tryUp {α : Type} (f : ℕ → Option α) : ℕ → Option α
  | 0 => f 0
  | g + 1 => (tryUp f g).orElse (fun _ => f (g + 1))

/-- Case-insensitive literal match at the head of the list; the pattern
(already lowercase in every source regex) is compared against the
lowercased input, implementing the `(?i)` flag. -/
def litCI : List Char → List Char → Bool
  | [], _ => true
  | _ :: _, [] => false
  | p :: ps, c :: cs => (pyLowerChar c == p) && litCI ps cs

/-- The month-name alternation of the source regexes, in pattern order.
At any fixed position at most one name can match, because no month name
is a prefix of another and they differ pairwise within two characters,
so alternation order does not influence which month is captured. -/
def month_names : List String :=
  ["january", "february", "march", "april", "may", "june",
   "july", "august", "september", "october", "november", "december"]

/-- First month name matching case-insensitively at the head of the list. -/
def monthAtCI (l : List Char) : Option String :=
  month_names.find? (fun m => litCI m.data l)

/-- `20\d\d` at the head of the list, returning the year value.  The
numeric value together with the fixed four-character shape determines
the matched text, so returning the value loses no information. -/
def yearAt : List Char → Option ℕ
  | a :: b :: c :: d :: _ =>
    if a == '2' && b == '0' && isDigit09 c && isDigit09 d then
      some (2000 + 10 * (c.toNat - 48) + (d.toNat - 48))
    else none
  | _ => none

/-- `20[3-9]\d` at the head of the list, returning the year value. -/
def year39At : List Char → Option ℕ
  | a :: b :: c :: d :: _ =>
    if a == '2' && b == '0' && (51 ≤ c.toNat && c.toNat ≤ 57) && isDigit09 d then
      some (2000 + 10 * (c.toNat - 48) + (d.toNat - 48))
    else none
  | _ => none

/-- A match produced by one of the `finditer` scans: absolute start and
end offsets (for `group(0)`), the captured month name and year value. -/
structure REMatch where
  start : ℕ
  stop : ℕ
  month : String
  year : ℕ
deriving Repr, DecidableEq

/-! ### The date pattern of `detect_contradictions`

`(january|...|december).{0,10}(20\d\d)` via `re.findall` on an already
lowercased string (this pattern carries no `(?i)` flag, but its inputs
are lowercase, so the case-insensitive matcher coincides with it). -/

/-- Match of the date pattern at the head of the list, as
`(length, month, year)`.  The greedy `.{0,10}` tries its largest extent
first; if the year fails at every gap the month alternative fails (no
other month can match at the same position). -/
def dateMatchAt (l : List Char) : Option (ℕ × String × ℕ) :=
  match monthAtCI l with
  | none => none
  | some m =>
    let afterM := l.drop m.length
    tryDown (fun g =>
      match yearAt (afterM.drop g) with
      | none => none
      | some y => some (m.length + g + 4, m, y))
      (min 10 (runNonNL afterM))

/-- Fuel-driven `re.findall` for the date pattern: leftmost matches,
resuming after the end of each match. -/
def dateFindAllF : ℕ → List Char → List (String × ℕ)
  | 0, _ => []
  | _ + 1, [] => []
  | fuel + 1, c :: cs =>
    match dateMatchAt (c :: cs) with
    | none => dateFindAllF fuel cs
    | some (len, m, y) => (m, y) :: dateFindAllF fuel (cs.drop (len - 1))

/-- `re.findall(date_pattern, text)` as the list of captured
`(month, year)` pairs in match order. -/
def dateFindAll (l : List Char) : List (String × ℕ) := dateFindAllF l.length l

/-! ## `ResearchEngine.detect_contradictions` (`engine.py`, lines 490-548) -/

def performance_keywords : List String :=
  ["performance", "growth", "revenue", "sales", "profit", "loss"]

def event_keywords : List String := ["scheduled", "upcoming", "announced", "launched"]

def layoff_keywords : List String := ["layoff", "job cut", "firing", "downsizing"]

def positive_terms : List String := ["growth", "increase", "positive", "strong", "success"]

def negative_terms : List String := ["decline", "decrease", "negative", "weak", "failure"]

def plan_terms : List String := ["plan", "will", "future", "expected", "upcoming"]

def past_terms : List String := ["completed", "announced", "executed", "implemented"]

/-- `any(keyword in text for keyword in words)` on a lowercased text. -/
def anyKw (words : List String) (l : List Char) : Bool :=
  words.any (fun w => strIn w.data l)

/-- The performance block of `detect_contradictions` (`engine.py`,
lines 506-520): one record per existing learning on a shared performance
topic with opposite sentiment polarity. -/
def perfBlock (learnings : List String) (new_learning : String) : List Contradiction :=
  if anyKw performance_keywords (pyLower new_learning) then
    learnings.filterMap (fun existing =>
      if anyKw performance_keywords (pyLower existing) then
        let new_positive := anyKw positive_terms (pyLower new_learning)
        let new_negative := anyKw negative_terms (pyLower new_learning)
        let existing_positive := anyKw positive_terms (pyLower existing)
        let existing_negative := anyKw negative_terms (pyLower existing)
        if (new_positive && existing_negative) || (new_negative && existing_positive) then
          some { topic := "Performance", claim1 := existing, claim2 := new_learning }
        else none
      else none)
  else []

/-- The event-date block of `detect_contradictions` (`engine.py`, lines
522-532): one record per existing learning when both mention event
keywords and their extracted date lists are nonempty and different. -/
def eventBlock (learnings : List String) (new_learning : String) : List Contradiction :=
  if anyKw event_keywords (pyLower new_learning) then
    learnings.filterMap (fun existing =>
      if anyKw event_keywords (pyLower existing) then
        let new_dates := dateFindAll (pyLower new_learning)
        let existing_dates := dateFindAll (pyLower existing)
        if !new_dates.isEmpty && !existing_dates.isEmpty && new_dates != existing_dates then
          some { topic := "Event Dates", claim1 := existing, claim2 := new_learning }
        else none
      else none)
  else []

/-- The layoff block of `detect_contradictions` (`engine.py`, lines
534-548): one record per existing learning with opposite
planned-versus-completed polarity on layoff keywords. -/
def layoffBlock (learnings : List String) (new_learning : String) : List Contradiction :=
  if anyKw layoff_keywords (pyLower new_learning) then
    learnings.filterMap (fun existing =>
      if anyKw layoff_keywords (pyLower existing) then
        let new_plan := anyKw plan_terms (pyLower new_learning)
        let new_past := anyKw past_terms (pyLower new_learning)
        let existing_plan := anyKw plan_terms (pyLower existing)
        let existing_past := anyKw past_terms (pyLower existing)
        if (new_plan && existing_past) || (new_past && existing_plan) then
          some { topic := "Layoff Timeline", claim1 := existing, claim2 := new_learning }
        else none
      else none)
  else []

/-- `ResearchEngine.detect_contradictions`, as the ordered list of
contradiction records it appends to memory: the performance family
first (one record per matching existing learning, in list order), then
the event-date family, then the layoff family. -/
def ResearchEngine.detect_contradictions (learnings : List String)
    (new_learning : String) : List Contradiction :=
  if learnings = [] then []
  else
    perfBlock learnings new_learning ++ eventBlock learnings new_learning ++
      layoffBlock learnings new_learning

/-! ## ContentClassifier (`content_classifier.py`) -/

/-- A calendar date as used by the classifier: the `datetime` values it
builds always carry day-resolution (the reference date) or day 1 (event
dates), and `datetime` comparison on them is lexicographic. -/
structure PyDate where
  year : ℕ
  month : ℕ
  day : ℕ
deriving Repr, DecidableEq

/-- Strict `datetime` comparison (lexicographic on year, month, day). -/
def PyDate.lt (a b : PyDate) : Bool :=
  a.year < b.year ||
    (a.year == b.year && (a.month < b.month ||
      (a.month == b.month && a.day < b.day)))

/-- `month_num`: position of the month name in the fixed list, plus 1
(`content_classifier.py`, lines 88-89). -/
def monthNum (m : String) : ℕ := month_names.indexOf m + 1

/-- Match of the upcoming pattern
`(?i)upcoming.{0,50}(month).{0,10}(20\d\d)` at the head of the list, as
`(length, month, year)`.  Both gaps are greedy, so larger extents are
attempted first. -/
def upMatchAt (l : List Char) : Option (ℕ × String × ℕ) :=
  if litCI "upcoming".data l then
    let l8 := l.drop 8
    tryDown (fun g =>
      match monthAtCI (l8.drop g) with
      | none => none
      | some m =>
        let afterM := l8.drop (g + m.length)
        tryDown (fun g2 =>
          match yearAt (afterM.drop g2) with
          | none => none
          | some y => some (8 + g + m.length + g2 + 4, m, y))
          (min 10 (runNonNL afterM)))
      (min 50 (runNonNL l8))
  else none

/-- Match of the scheduled pattern
`(?i)scheduled.*?for.*?(month).*?(20\d\d)` at the head of the list.  All
three gaps are lazy, so smaller extents are attempted first; a gap of
`.` characters cannot cross a newline, which bounds each gap by the
non-newline run. -/
def schedMatchAt (l : List Char) : Option (ℕ × String × ℕ) :=
  if litCI "scheduled".data l then
    let l9 := l.drop 9
    tryUp (fun a =>
      if litCI "for".data (l9.drop a) then
        let afterFor := l9.drop (a + 3)
        tryUp (fun b =>
          match monthAtCI (afterFor.drop b) with
          | none => none
          | some m =>
            let afterM := afterFor.drop (b + m.length)
            tryUp (fun c =>
              match yearAt (afterM.drop c) with
              | none => none
              | some y => some (9 + a + 3 + b + m.length + c + 4, m, y))
              (runNonNL afterM))
          (runNonNL afterFor)
      else none)
      (runNonNL l9)
  else none

/-- Fuel-driven `re.finditer` on a positioned matcher: leftmost matches,
resuming at the end of each match. -/
def reFindAllF (matchAt : List Char → Option (ℕ × String × ℕ)) :
    ℕ → ℕ → List Char → List REMatch
  | 0, _, _ => []
  | _ + 1, _, [] => []
  | fuel + 1, pos, c :: cs =>
    match matchAt (c :: cs) with
    | none => reFindAllF matchAt fuel (pos + 1) cs
    | some (len, m, y) =>
      ⟨pos, pos + len, m, y⟩ :: reFindAllF matchAt fuel (pos + len) (cs.drop (len - 1))

/-- All matches of the upcoming pattern, in `finditer` order. -/
def upFindAll (l : List Char) : List REMatch := reFindAllF upMatchAt l.length 0 l

/-- All matches of the scheduled pattern, in `finditer` order. -/
def schedFindAll (l : List Char) : List REMatch := reFindAllF schedMatchAt l.length 0 l

/-- `group(0)` of a match: the slice of the input between its offsets. -/
def group0 (l : List Char) (m : REMatch) : String :=
  String.mk ((l.take m.stop).drop m.start)

/-- The violation test of the temporal validator: the event date (day 1
of the captured month and year) is strictly before the reference date. -/
def temporalViol (current_date : PyDate) (m : REMatch) : Bool :=
  PyDate.lt ⟨m.year, monthNum m.month, 1⟩ current_date

/-- `ContentClassifier.validate_temporal_consistency`
(`content_classifier.py`, lines 66-110): iterate the upcoming matches
and fail on the first one whose event date is before the reference
date; then likewise for the scheduled matches; otherwise succeed. -/
def ContentClassifier.validate_temporal_consistency (current_date : PyDate)
    (text : String) : Bool × String :=
  let t := text.data
  match (upFindAll t).find? (temporalViol current_date) with
  | some m =>
    (false, "Temporal inconsistency: " ++ apos ++ group0 t m ++ apos ++
      " refers to a past event as upcoming")
  | none =>
    match (schedFindAll t).find? (temporalViol current_date) with
    | some m =>
      (false, "Temporal inconsistency: " ++ apos ++ group0 t m ++ apos ++
        " refers to a scheduled event that should have already occurred")
    | none => (true, "No temporal inconsistencies detected")

/-! ### `ContentClassifier.validate_numerical_reasonableness`
(`content_classifier.py`, lines 112-136)

Pattern `(?i)(by|in|reach|hitting).{0,20}(20[3-9]\d).{0,50}\$?([0-9,]+\.[0-9]+)`.
The keyword alternatives start with pairwise distinct letters, so at most
one can match at a position.  `[0-9,]+` greedily takes the maximal run of
digits and commas; backtracking inside it cannot reach a literal dot
(every shorter extent ends in front of a digit or comma), so the literal
dot must follow the maximal run.  A present dollar sign is consumed by
the greedy `\$?`; declining it cannot help, since `$` is not in `[0-9,]`. -/

/-- A match of the projection pattern: offsets for `group(0)`, the year
value and the characters of the captured numeric literal (`group(3)`). -/
structure NumMatch where
  start : ℕ
  stop : ℕ
  year : ℕ
  value : List Char
deriving Repr, DecidableEq

/-- Length of the maximal `[0-9,]` run at the head of the list. -/
def runNumComma : List Char → ℕ
  | [] => 0
  | c :: cs => if isDigit09 c || c == ',' then runNumComma cs + 1 else 0

/-- Length of the maximal `[0-9]` run at the head of the list. -/
def runDigit : List Char → ℕ
  | [] => 0
  | c :: cs => if isDigit09 c then runDigit cs + 1 else 0

/-- `[0-9,]+\.[0-9]+` at the head of the list, returning the consumed
length and the matched characters. -/
def parseNumAt (l : List Char) : Option (ℕ × List Char) :=
  let r1 := runNumComma l
  if r1 == 0 then none
  else
    match (l.drop r1).head? with
    | some dot =>
      if dot == '.' then
        let r2 := runDigit (l.drop (r1 + 1))
        if r2 == 0 then none
        else some (r1 + 1 + r2, l.take (r1 + 1 + r2))
      else none
    | none => none

/-- Match of the projection pattern at the head of the list, as
`(length, year, value characters)`. -/
def numMatchAt (l : List Char) : Option (ℕ × ℕ × List Char) :=
  match (["by", "in", "reach", "hitting"] : List String).find?
      (fun w => litCI w.data l) with
  | none => none
  | some kw =>
    let lk := l.drop kw.length
    tryDown (fun g =>
      match year39At (lk.drop g) with
      | none => none
      | some y =>
        let afterY := lk.drop (g + 4)
        tryDown (fun g2 =>
          let here := afterY.drop g2
          let ds : ℕ := if here.head? == some '$' then 1 else 0
          match parseNumAt (here.drop ds) with
          | none => none
          | some (nlen, chars) =>
            some (kw.length + g + 4 + g2 + ds + nlen, y, chars))
          (min 50 (runNonNL afterY)))
      (min 20 (runNonNL lk))

/-- Fuel-driven `re.finditer` for the projection pattern. -/
def numFindAllF : ℕ → ℕ → List Char → List NumMatch
  | 0, _, _ => []
  | _ + 1, _, [] => []
  | fuel + 1, pos, c :: cs =>
    match numMatchAt (c :: cs) with
    | none => numFindAllF fuel (pos + 1) cs
    | some (len, y, chars) =>
      ⟨pos, pos + len, y, chars⟩ :: numFindAllF fuel (pos + len) (cs.drop (len - 1))

/-- All matches of the projection pattern, in `finditer` order. -/
def numFindAll (l : List Char) : List NumMatch := numFindAllF l.length 0 l

/-- `years_ahead = year - self.current_date.year`. -/
def yearsAhead (current_date : PyDate) (m : NumMatch) : ℤ :=
  (m.year : ℤ) - (current_date.year : ℤ)

/-- The flag test of the numerical validator: more than ten years ahead
and the captured literal, with commas removed, contains a dot (the
comma removal is `value.replace(",", "")` of the source). -/
def numViol (current_date : PyDate) (m : NumMatch) : Bool :=
  decide (10 < yearsAhead current_date m) &&
    (m.value.filter (fun c => !(c == ','))).contains '.'

/-- `ContentClassifier.validate_numerical_reasonableness`: fail on the
first projection match flagged by `numViol`, succeed otherwise. -/
def ContentClassifier.validate_numerical_reasonableness (current_date : PyDate)
    (text : String) : Bool × String :=
  let t := text.data
  match (numFindAll t).find? (numViol current_date) with
  | some m =>
    (false, "Unreasonable precision: " ++ apos ++
      String.mk ((t.take m.stop).drop m.start) ++ apos ++
      " has decimal precision for a " ++ toString (yearsAhead current_date m) ++
      "-year forecast")
  | none => (true, "No unreasonable numerical projections detected")

/-! ## ResearchEngine orchestration (`engine.py`) and the public entry
point (`api.py`)

External collaborators (the LLM, the search engines, the scraper) and
wall-clock readings are modelled by an environment of oracles indexed by
a call counter, so that distinct calls may receive unrelated answers.
Thought-log entries are reproduced from the source f-strings; the
wall-clock timestamp prefix added by `ResearchMemory.add_thought` and
the two-decimal float renderings inside some log lines carry no logic
and are abstracted (the corresponding entries keep their leading text).
Log lines whose content is a function of unthreaded external data (the
scraped page bodies) are supplied by the environment. -/

/-- `SerpQuery` (`models.py`): a generated query with its goal. -/
structure SerpQuery where
  query : String
  research_goal : String
deriving Repr, DecidableEq

/-- `Learnings` (`models.py`): the extraction result. -/
structure Learnings where
  learnings : List String
  follow_up_questions : List String
deriving Repr, DecidableEq

/-- `SourceEvaluation` (`models.py`), as stored by
`ResearchMemory.add_source_evaluation`. -/
structure SourceEvaluation where
  url : String
  title : String
  credibility_rating : String
  relevance_rating : String
  justification : String
  key_points : List String
deriving Repr, DecidableEq

/-- One value of the topic-keyed information map
(`{"consensus": [], "contradictions": [], "gaps": []}`). -/
structure InfoMapEntry where
  consensus : List String
  contradictions : List String
  gaps : List String
deriving Repr, DecidableEq

/-- The state of a `ResearchMemory` instance (`memory.py`, lines 27-35).
The `current_date` field is the classifier reference date and is carried
separately where needed. -/
structure Memory where
  learnings : List String := []
  visited_urls : List String := []
  chain_of_thought : List String := []
  information_map : List (String × InfoMapEntry) := []
  contradictions : List Contradiction := []
  source_evaluations : List SourceEvaluation := []
deriving Repr, DecidableEq

/-- `ResearchMemory.add_thought` (timestamp prefix abstracted). -/
def Memory.add_thought (m : Memory) (t : String) : Memory :=
  { m with chain_of_thought := m.chain_of_thought ++ [t] }

/-- Append several thoughts in order. -/
def Memory.add_thoughts (m : Memory) (ts : List String) : Memory :=
  ts.foldl Memory.add_thought m

/-- `ResearchMemory.add_learning` on the memory state. -/
def Memory.add_learningM (m : Memory) (s : String) : Memory :=
  { m with learnings := ResearchMemory.add_learning m.learnings s }

/-- `ResearchMemory.add_learnings`: insert each in order. -/
def Memory.add_learnings (m : Memory) (ls : List String) : Memory :=
  ls.foldl Memory.add_learningM m

/-- `ResearchMemory.add_url` on the memory state. -/
def Memory.add_urlM (m : Memory) (s : String) : Memory :=
  { m with visited_urls := ResearchMemory.add_url m.visited_urls s }

/-- `ResearchMemory.add_urls`: insert each in order. -/
def Memory.add_urls (m : Memory) (ls : List String) : Memory :=
  ls.foldl Memory.add_urlM m

/-- `ResearchMemory.add_contradiction`: append the record and emit the
derived thought line. -/
def Memory.add_contradictionM (m : Memory) (topic claim1 claim2 : String) : Memory :=
  let m := { m with contradictions := m.contradictions ++
    [({ topic := topic, claim1 := claim1, claim2 := claim2 } : Contradiction)] }
  m.add_thought ("Contradiction detected in topic " ++ apos ++ topic ++ apos ++
    ": " ++ claim1 ++ " vs " ++ claim2)

/-- `ResearchMemory.add_source_evaluation`. -/
def Memory.add_source_evaluation (m : Memory) (e : SourceEvaluation) : Memory :=
  { m with source_evaluations := m.source_evaluations ++ [e] }

/-- `ResearchEngine.detect_contradictions` acting on the memory state:
record every contradiction found for the new learning, in order. -/
def Memory.detect (m : Memory) (new_learning : String) : Memory :=
  (ResearchEngine.detect_contradictions m.learnings new_learning).foldl
    (fun mm c => mm.add_contradictionM c.topic c.claim1 c.claim2) m

/-- The state of a `ResearchProgress` instance (`progress.py`).  The
`start_time` wall-clock field and the logging-only `_report_progress`
are not modelled. -/
structure Progress where
  total_depth : ℤ
  total_breadth : ℤ
  current_depth : ℤ
  current_breadth : ℤ
  total_queries : ℕ := 0
  completed_queries : ℕ := 0
  current_query : String := ""
deriving Repr, DecidableEq

/-- Environment of oracles for the external collaborators, indexed by a
call counter.  A `*Fails`/`*Raises` flag set at an index models the
corresponding Python call raising an exception there; `errMsg` is the
`str(e)` text of that exception. -/
structure Env where
  serpQueries : ℕ → List SerpQuery
  serpFails : ℕ → Bool
  searchUrls : ℕ → List String
  searchLog : ℕ → List String
  scrapeLog : ℕ → List String
  scrapedUrls : ℕ → List String
  processNoContent : ℕ → Bool
  processFails : ℕ → Bool
  processLearnings : ℕ → Learnings
  evaluations : ℕ → List SourceEvaluation
  validationLog : ℕ → List String
  queryRaises : ℕ → Bool
  errMsg : ℕ → String
  timeUsage : ℕ → ℚ

/-- Result dictionary of `ResearchEngine.execute_query`; the
`follow_up_questions` field is read back with `.get(..., [])`, so the
variants that omit the key carry the empty list. -/
structure QueryResult where
  success : Bool
  new_learnings : List String := []
  follow_up_questions : List String := []
  reason : String := ""
deriving Repr, DecidableEq

/-- Python `l[:n]` for an `int` bound (negative bounds cut from the
end). -/
def pySliceTo {α : Type} (l : List α) (n : ℤ) : List α :=
  if 0 ≤ n then l.take n.toNat else l.take (l.length - (-n).toNat)

/-- `ResearchEngine.process_serp_result` (`engine.py`, lines 384-488):
source evaluation, per-content validation logging, extraction, and
contradiction detection for each extracted learning (the memory does not
yet contain the new learnings at that point; `execute_query` adds them
afterwards). -/
def ResearchEngine.process_serp_result (env : Env) (k : ℕ) (query : String)
    (mem : Memory) : Option Learnings × Memory :=
  let m := mem.add_thought ("Processing search results for query: " ++ query)
  if env.processNoContent k then
    (none, m.add_thought "No valid content found in search results")
  else
    let urls := env.scrapedUrls k
    let m := m.add_thought ("Analyzing " ++ toString urls.length ++ " content sources")
    let m := m.add_thought ("Evaluating credibility and relevance of " ++
      toString urls.length ++ " sources")
    let m := (env.evaluations k).foldl (fun mm e =>
      (mm.add_source_evaluation e).add_thought
        ("Source evaluation - URL: " ++ e.url ++ " - Credibility: " ++
          e.credibility_rating ++ ", Relevance: " ++ e.relevance_rating)) m
    let m := m.add_thoughts (env.validationLog k)
    if env.processFails k then
      (none, m.add_thought ("Error processing search results: " ++ env.errMsg k))
    else
      let obj := env.processLearnings k
      let m := m.add_thought ("Extracted " ++ toString obj.learnings.length ++ " learnings")
      let m := m.add_thought ("Generated " ++ toString obj.follow_up_questions.length ++
        " follow-up questions")
      let m := obj.learnings.enum.foldl (fun mm il =>
        ((mm.add_thought ("Learning " ++ toString (il.1 + 1) ++ ": " ++
          (il.2.take 100) ++ "..."))).detect il.2) m
      (some obj, m)

/-- `ResearchEngine.execute_query` (`engine.py`, lines 550-629). -/
def ResearchEngine.execute_query (env : Env) (k : ℕ) (sq : SerpQuery)
    (current_depth current_breadth : ℤ) (mem : Memory) (prog : Progress) :
    QueryResult × Memory × Progress :=
  let m := mem.add_thought ("Executing research query: " ++ sq.query)
  let m := m.add_thought ("Research goal: " ++ sq.research_goal)
  if env.queryRaises k then
    ({ success := false, reason := env.errMsg k },
      m.add_thought ("Error executing query " ++ apos ++ sq.query ++ apos ++ ": " ++
        env.errMsg k), prog)
  else
    let prog := { prog with
      current_query := sq.query
      current_depth := current_depth
      current_breadth := current_breadth }
    let m := m.add_thought ("Executing search for query: " ++ sq.query)
    let m := m.add_thoughts (env.searchLog k)
    let search_urls := env.searchUrls k
    if search_urls.isEmpty then
      ({ success := false, reason := "No search results found" },
        m.add_thought "No search results found. Cannot proceed with this query.", prog)
    else
      let m := m.add_thought ("Scraping content from " ++ toString search_urls.length ++ " URLs")
      let m := m.add_thoughts (env.scrapeLog k)
      let successful_urls := env.scrapedUrls k
      let (optL, m) := ResearchEngine.process_serp_result env k sq.query m
      let m := m.add_urls successful_urls
      match optL with
      | some obj =>
        let m := m.add_learnings obj.learnings
        if 1 < current_depth then
          let fu := obj.follow_up_questions
          let m := m.add_thought ("Identified " ++ toString fu.length ++
            " follow-up questions for deeper research")
          let m := fu.enum.foldl (fun mm iq =>
            mm.add_thought ("Follow-up " ++ toString (iq.1 + 1) ++ ": " ++ iq.2)) m
          ({ success := true, new_learnings := obj.learnings,
             follow_up_questions := fu }, m, prog)
        else ({ success := true }, m, prog)
      | none => ({ success := true }, m, prog)

/-- The parameter update between levels (`engine.py`, lines 702-708): via
`ResearchEngine.adjust_parameters` (which re-estimates information
quality from memory and reads the time-usage fraction) when auto-tuning,
via the static halving rule otherwise.  `math.ceil(b / 2)` on an integer
`b` is `(b + 1) // 2` with floor division. -/
def nextParameters (env : Env) (k : ℕ) (auto_tune : Bool) (max_depth max_breadth : ℤ)
    (current_depth current_breadth : ℤ) (mem : Memory) : ℤ × ℤ × Memory :=
  if auto_tune then
    let iq := AutoTuner.estimate_info_quality mem.learnings mem.contradictions
    let tu := env.timeUsage k
    let nd := AutoTuner.adjust_parameters max_depth max_breadth
      (current_depth - 1) current_breadth iq tu
    let mem :=
      if nd.1 ≠ current_depth - 1 ∨ nd.2 ≠ current_breadth then
        mem.add_thought ("Auto-adjusted parameters - New depth: " ++ toString nd.1 ++
          ", breadth: " ++ toString nd.2)
      else mem
    (nd.1, nd.2, mem)
  else (current_depth - 1, max 1 ((current_breadth + 1).ediv 2), mem)

/-- The body of the per-query loop of `execute_research_iteration`
(`engine.py`, lines 688-717): execute the query, count it as completed,
and, when it succeeded with follow-up questions and depth remains,
compute the next-level parameters and recurse (through `recurse`, which
the iteration instantiates with itself at the next fuel level) before
moving to the next sibling query. -/
def iterStep (env : Env) (auto_tune : Bool) (max_depth max_breadth : ℤ)
    (current_depth current_breadth : ℤ)
    (recurse : ℕ → String → ℤ → ℤ → Memory → Progress → ℕ × Memory × Progress × ℕ)
    (acc : ℕ × Memory × Progress × ℕ) (sq : SerpQuery) : ℕ × Memory × Progress × ℕ :=
  let (cnt, mm, pg, kk) := acc
  let (qr, mm, pg) :=
    ResearchEngine.execute_query env kk sq current_depth current_breadth mm pg
  let pg := { pg with completed_queries := pg.completed_queries + 1 }
  if qr.success && decide (1 < current_depth) && !qr.follow_up_questions.isEmpty then
    let (nd, nb, mm) := nextParameters env kk auto_tune max_depth max_breadth
      current_depth current_breadth mm
    let next_query := ("Previous research goal: " ++ sq.research_goal ++
      "\nFollow-up research directions:\n" ++
      "\n".intercalate (qr.follow_up_questions.take 3)).trim
    let (c2, mm, pg, kk2) := recurse (kk + 1) next_query nd nb mm pg
    (cnt + c2, mm, pg, kk2)
  else (cnt, mm, pg, kk + 1)

/-- `execute_research_iteration` (`engine.py`, lines 668-717), the
recursive expansion procedure.  The first component of the result counts
how many times the procedure was entered (the top-level call included);
it is verification instrumentation, not program state.  The `fuel`
argument bounds the recursion depth of the model; every theorem below
holds for every fuel value it quantifies over. -/
def ResearchEngine.execute_research_iteration (env : Env) (auto_tune : Bool)
    (max_depth max_breadth : ℤ) :
    ℕ → ℕ → String → ℤ → ℤ → Memory → Progress → ℕ × Memory × Progress × ℕ
  | 0, k, _, _, _, mem, prog => (0, mem, prog, k)
  | fuel + 1, k, iteration_query, current_depth, current_breadth, mem, prog =>
    let m := mem.add_thought ("Starting research iteration at depth " ++
      toString current_depth ++ " with breadth " ++ toString current_breadth)
    let m := m.add_thought ("Iteration query: " ++ iteration_query)
    let m := m.add_thought ("Generating SERP queries for: " ++ iteration_query)
    let (serp, m) :=
      if env.serpFails k then
        (([] : List SerpQuery),
          m.add_thought ("Error generating SERP queries: " ++ env.errMsg k))
      else
        let qs := env.serpQueries k
        let m := m.add_thought ("Generated " ++ toString qs.length ++ " SERP queries")
        let m := qs.enum.foldl (fun mm iq =>
          mm.add_thought ("Query " ++ toString (iq.1 + 1) ++ ": " ++ iq.2.query ++
            " - Goal: " ++ iq.2.research_goal)) m
        (pySliceTo qs current_breadth, m)
    if serp.isEmpty then
      (1, m.add_thought "Failed to generate search queries. Ending this research path.",
        prog, k + 1)
    else
      let prog := { prog with total_queries := prog.total_queries + serp.length }
      let res := serp.foldl
        (iterStep env auto_tune max_depth max_breadth current_depth current_breadth
          (fun kk q d b mm pg => ResearchEngine.execute_research_iteration env
            auto_tune max_depth max_breadth fuel kk q d b mm pg))
        ((0 : ℕ), m, prog, k + 1)
      (1 + res.1, res.2.1, res.2.2.1, res.2.2.2)

/-- Python `x or default` for an optional `int` argument (`None` and `0`
are falsy; every other integer passes through). -/
def pyOrInt (x : Option ℤ) (default : ℤ) : ℤ :=
  match x with
  | none => default
  | some v => if v = 0 then default else v

/-- `ResearchEngine.determine_auto_parameters` (`engine.py`, lines
89-113): complexity analysis plus the initial-parameter rule. -/
def ResearchEngine.determine_auto_parameters (auto_tune : Bool)
    (max_depth max_breadth : ℤ) (query : String) (mem : Memory) : ℤ × ℤ × Memory :=
  if !auto_tune then (2, 4, mem)
  else
    let metrics := AutoTuner.analyze_question_complexity query
    let db := AutoTuner.determine_initial_parameters max_depth max_breadth metrics
    (db.1, db.2,
      mem.add_thought ("Auto-tuned parameters - Initial depth: " ++ toString db.1 ++
        ", breadth: " ++ toString db.2))

/-- `ResearchEngine.deep_research` (`engine.py`, lines 631-731).  Returns
the final memory snapshot, the iteration-entry count and the progress
state. -/
def ResearchEngine.deep_research (env : Env) (auto_tune : Bool)
    (max_depth max_breadth : ℤ) (fuel : ℕ) (query : String)
    (breadth depth : Option ℤ) : Memory × ℕ × Progress :=
  let mem : Memory := {}
  let dbm : ℤ × ℤ × Memory :=
    if auto_tune && (breadth.isNone || depth.isNone) then
      let adm := ResearchEngine.determine_auto_parameters auto_tune
        max_depth max_breadth query mem
      (pyOrInt depth adm.1, pyOrInt breadth adm.2.1, adm.2.2)
    else (pyOrInt depth 2, pyOrInt breadth 4, mem)
  let d := dbm.1
  let b := dbm.2.1
  let mem := dbm.2.2
  let prog : Progress := { total_depth := d, total_breadth := b,
                           current_depth := d, current_breadth := b }
  let mem := mem.add_thought ("Starting deep research on: " ++ query)
  let mem := mem.add_thought ("Research parameters - Breadth: " ++ toString b ++
    ", Depth: " ++ toString d)
  let mem := mem.add_thought "Current date context"
  let res := ResearchEngine.execute_research_iteration env
    auto_tune max_depth max_breadth fuel 0 query d b mem prog
  ((res.2.1).add_thought "Research process completed", res.1, res.2.2.1)

/-- A value of the result dictionary of the public entry point. -/
inductive RVal where
  | strs (xs : List String)
  | imap (m : List (String × InfoMapEntry))
  | contras (xs : List Contradiction)
  | evals (xs : List SourceEvaluation)
deriving Repr, DecidableEq

/-- The dictionary returned by `ResearchEngine.deep_research`
(`engine.py`, lines 724-731), key by key in source order. -/
def engineResultDict (mem : Memory) : List (String × RVal) :=
  [("learnings", RVal.strs mem.learnings),
   ("visited_urls", RVal.strs mem.visited_urls),
   ("chain_of_thought", RVal.strs mem.chain_of_thought),
   ("information_map", RVal.imap mem.information_map),
   ("contradictions", RVal.contras mem.contradictions),
   ("source_evaluations", RVal.evals mem.source_evaluations)]

/-- The public entry point `deep_research` (`api.py`, lines 46-66).
`failure` models an exception raised while constructing the engine (for
example the `KeyError` for a missing model name) or escaping the
research run, with its `str(e)` text; the `except` branch then builds
the degraded dictionary.  The function is total: no exception reaches
the caller. -/
def deep_research (env : Env) (failure : Option String) (query : String)
    (breadth depth : Option ℤ) (auto_tune : Bool) (max_depth max_breadth : ℤ)
    (fuel : ℕ) : List (String × RVal) :=
  match failure with
  | some e =>
    [("learnings", RVal.strs ["Research error: " ++ e]),
     ("visited_urls", RVal.strs []),
     ("chain_of_thought", RVal.strs ["Critical error in research process: " ++ e])]
  | none =>
    engineResultDict (ResearchEngine.deep_research env auto_tune max_depth
      max_breadth fuel query breadth depth).1

/-- Iteration-entry count of a full run: 1 for the top-level invocation
of `execute_research_iteration` plus 1 for every recursive re-entry. -/
def deepResearchEntries (env : Env) (auto_tune : Bool) (max_depth max_breadth : ℤ)
    (fuel : ℕ) (query : String) (breadth depth : Option ℤ) : ℕ :=
  (ResearchEngine.deep_research env auto_tune max_depth max_breadth fuel query
    breadth depth).2.1

/-! # Claims -/

/-! ## C3 and C4: `AutoTuner.adjust_parameters` -/

/-- The adjustment rule as the specification words it: deltas by quality
band, an additional `(1, 2)` subtracted from the deltas under time
pressure, then clamping into `[1, max_depth]` and `[2, max_breadth]`. -/
def adjustParametersSpec (max_depth max_breadth : ℤ)
    (current_depth current_breadth : ℤ)
    (info_quality time_usage_fraction : ℚ) : ℤ × ℤ :=
  let dd : ℤ := if info_quality < 3/10 then 1 else if 7/10 < info_quality then -1 else 0
  let db : ℤ := if info_quality < 3/10 then 2 else if 7/10 < info_quality then -1 else 1
  let dd := if 7/10 < time_usage_fraction then dd - 1 else dd
  let db := if 7/10 < time_usage_fraction then db - 2 else db
  (max 1 (min max_depth (current_depth + dd)),
   max 2 (min max_breadth (current_breadth + db)))

/-- C3: for all integer parameters and all `info_quality` and
`time_usage_fraction` in `[0, 1]`, `adjust_parameters` computes band
deltas (`quality < 0.3` gives `(+1, +2)`, `quality > 0.7` gives
`(-1, -1)`, otherwise `(0, +1)`), subtracts an additional `(1, 2)` when
`time_usage_fraction > 0.7`, and clamps the adjusted values into
`[1, max_depth]` and `[2, max_breadth]`. -/
theorem C3_adjust_parameters_bands (max_depth max_breadth d b : ℤ) (q t : ℚ)
    (hq0 : 0 ≤ q) (hq1 : q ≤ 1) (ht0 : 0 ≤ t) (ht1 : t ≤ 1) :
    AutoTuner.adjust_parameters max_depth max_breadth d b q t =
      adjustParametersSpec max_depth max_breadth d b q t := by
  unfold AutoTuner.adjust_parameters adjustParametersSpec
  have h3 : (0.3 : ℚ) = 3/10 := by norm_num
  have h7 : (0.7 : ℚ) = 7/10 := by norm_num
  rw [h3, h7]
  split_ifs <;> simp

theorem C3_adjust_parameters_bands_witness :
    (0 : ℚ) ≤ 1/2 ∧ (1 : ℚ)/2 ≤ 1 ∧ (0 : ℚ) ≤ 4/5 ∧ (4 : ℚ)/5 ≤ 1 ∧
      AutoTuner.adjust_parameters 5 8 3 4 (1/2) (4/5) =
        adjustParametersSpec 5 8 3 4 (1/2) (4/5) :=
  ⟨by norm_num, by norm_num, by norm_num, by norm_num,
    C3_adjust_parameters_bands 5 8 3 4 (1/2) (4/5) (by norm_num) (by norm_num)
      (by norm_num) (by norm_num)⟩

/-- C4 counterexample: at `info_quality = 0.2` (low-quality band) and
`time_usage_fraction = 0.8`, the band delta `(+1, +2)` and the time
penalty `(-1, -2)` cancel, so `adjust_parameters 5 8 3 4 0.2 0.8`
returns `(3, 4)`: the depth is neither strictly below the input `3` nor
at the lower clamp bound `1`, and the breadth is neither strictly below
the input `4` nor at the lower clamp bound `2`. -/
theorem C4_counterexample :
    AutoTuner.adjust_parameters 5 8 3 4 (2/10) (8/10) = (3, 4) ∧
      ¬(((3 : ℤ) < 3 ∨ (3 : ℤ) = 1) ∧ ((4 : ℤ) < 4 ∨ (4 : ℤ) = 2)) := by
  constructor
  · norm_num [AutoTuner.adjust_parameters]
  · decide

/-- C4 (amended): for every `max_depth`, `max_breadth`, depth and
breadth, and every `info_quality` of at least `0.3` (outside the
low-quality expansion band), calling `adjust_parameters` with
`time_usage_fraction = 0.8` returns a depth strictly below the input
depth or equal to the lower clamp bound `1`, and a breadth strictly
below the input breadth or equal to the lower clamp bound `2`.  (The
original claim quantified over every `info_quality`; the counterexample
shows it fails on the band `info_quality < 0.3`, where the band delta
and the time penalty cancel.) -/
theorem C4_time_pressure_contracts (max_depth max_breadth d b : ℤ) (q : ℚ)
    (hq : 3/10 ≤ q) :
    ((AutoTuner.adjust_parameters max_depth max_breadth d b q (8/10)).1 < d ∨
      (AutoTuner.adjust_parameters max_depth max_breadth d b q (8/10)).1 = 1) ∧
    ((AutoTuner.adjust_parameters max_depth max_breadth d b q (8/10)).2 < b ∨
      (AutoTuner.adjust_parameters max_depth max_breadth d b q (8/10)).2 = 2) := by
  unfold AutoTuner.adjust_parameters
  have h1 : ¬(q < 0.3) := by rw [show (0.3 : ℚ) = 3/10 by norm_num]; linarith
  have h2 : (0.7 : ℚ) < 8/10 := by norm_num
  simp only [if_neg h1, if_pos h2]
  by_cases h3 : (0.7 : ℚ) < q
  · simp only [if_pos h3, sup_eq_max, inf_eq_min]
    constructor <;> omega
  · simp only [if_neg h3, sup_eq_max, inf_eq_min]
    constructor <;> omega

theorem C4_time_pressure_contracts_witness :
    (3 : ℚ)/10 ≤ 1/2 ∧
      (((AutoTuner.adjust_parameters 5 8 3 4 (1/2) (8/10)).1 < 3 ∨
        (AutoTuner.adjust_parameters 5 8 3 4 (1/2) (8/10)).1 = 1) ∧
       ((AutoTuner.adjust_parameters 5 8 3 4 (1/2) (8/10)).2 < 4 ∨
        (AutoTuner.adjust_parameters 5 8 3 4 (1/2) (8/10)).2 = 2)) :=
  ⟨by norm_num, C4_time_pressure_contracts 5 8 3 4 (1/2) (by norm_num)⟩

/-! ## C7: idempotent insertion into research memory -/

/-- C7: inserting the same string twice into the learnings list
(respectively the visited-URLs list) leaves the list identical to the
state after the first insertion; membership is exact string equality, a
duplicate is never appended (a present string leaves the list
unchanged), and a new string is appended at the end, preserving the
first-insertion order of the existing entries. -/
theorem C7_memory_insert_idempotent (L U : List String) (s : String) :
    ResearchMemory.add_learning (ResearchMemory.add_learning L s) s =
      ResearchMemory.add_learning L s ∧
    ResearchMemory.add_url (ResearchMemory.add_url U s) s =
      ResearchMemory.add_url U s ∧
    s ∈ ResearchMemory.add_learning L s ∧
    (s ∈ L → ResearchMemory.add_learning L s = L) ∧
    (s ∉ L → ResearchMemory.add_learning L s = L ++ [s]) := by
  unfold ResearchMemory.add_learning ResearchMemory.add_url
  by_cases hL : s ∈ L <;> by_cases hU : s ∈ U <;> simp [hL, hU]

theorem C7_memory_insert_idempotent_witness :
    (ResearchMemory.add_learning (ResearchMemory.add_learning ["a"] "b") "b" =
      ResearchMemory.add_learning ["a"] "b") ∧
    (ResearchMemory.add_url (ResearchMemory.add_url [] "b") "b" =
      ResearchMemory.add_url [] "b") ∧
    ("b" ∈ ResearchMemory.add_learning ["a"] "b") ∧
    ResearchMemory.add_learning ["a"] "b" = ["a"] ++ ["b"] :=
  have h := C7_memory_insert_idempotent ["a"] [] "b"
  ⟨h.1, h.2.1, h.2.2.1, h.2.2.2.2 (by decide)⟩

/-! ## C10: totality and range of `estimate_info_quality` -/

/-- C10: `estimate_info_quality` is total; it returns `0` on an empty
learnings list, and its value always lies in `[0, 1]` (each weighted
component is individually clamped into `[0, 1]` and every division is
guarded). -/
theorem C10_estimate_info_quality_range (learnings : List String)
    (contradictions : List Contradiction) :
    0 ≤ AutoTuner.estimate_info_quality learnings contradictions ∧
    AutoTuner.estimate_info_quality learnings contradictions ≤ 1 ∧
    (learnings = [] → AutoTuner.estimate_info_quality learnings contradictions = 0) := by
  unfold AutoTuner.estimate_info_quality
  by_cases h : learnings = []
  · simp [h]
  · simp only [if_neg h]
    refine ⟨?_, ?_, fun h2 => absurd h2 h⟩ <;>
    · have hlen : (0 : ℚ) < (learnings.length : ℚ) := by
        have : learnings.length ≠ 0 := fun hh => h (List.eq_nil_of_length_eq_zero hh)
        exact_mod_cast Nat.pos_of_ne_zero this
      have havg : (0 : ℚ) ≤ ((learnings.map (fun l => (l.length : ℚ))).sum) / (learnings.length : ℚ) := by
        apply div_nonneg _ (le_of_lt hlen)
        apply List.sum_nonneg
        intro x hx
        obtain ⟨a, _, rfl⟩ := List.mem_map.mp hx
        positivity
      have hls0 : (0 : ℚ) ≤ min 1 (((learnings.map (fun l => (l.length : ℚ))).sum) / (learnings.length : ℚ) / 300) := by
        apply le_min (by norm_num)
        positivity
      have hls1 : min 1 (((learnings.map (fun l => (l.length : ℚ))).sum) / (learnings.length : ℚ) / 300) ≤ 1 :=
        min_le_left _ _
      have hratio : (0 : ℚ) ≤ (contradictions.length : ℚ) / ((max 1 learnings.length : ℕ) : ℚ) := by
        positivity
      have hcs0 : (0 : ℚ) ≤ max 0 (1 - (contradictions.length : ℚ) / ((max 1 learnings.length : ℕ) : ℚ) * 2) :=
        le_max_left _ _
      have hcs1 : max 0 (1 - (contradictions.length : ℚ) / ((max 1 learnings.length : ℕ) : ℚ) * 2) ≤ 1 := by
        apply max_le (by norm_num)
        nlinarith
      have hds0 : (0 : ℚ) ≤ min 1 (((pySplit ((" ".intercalate learnings).data.map pyLowerChar)).dedup.length : ℚ) / ((max 1 (pySplit (" ".intercalate learnings).data).length : ℕ) : ℚ) * 3) := by
        apply le_min (by norm_num)
        positivity
      have hds1 : min 1 (((pySplit ((" ".intercalate learnings).data.map pyLowerChar)).dedup.length : ℚ) / ((max 1 (pySplit (" ".intercalate learnings).data).length : ℕ) : ℚ) * 3) ≤ 1 :=
        min_le_left _ _
      set ls := min 1 (((learnings.map (fun l => (l.length : ℚ))).sum) / (learnings.length : ℚ) / 300) with hlsdef
      set cs := max 0 (1 - (contradictions.length : ℚ) / ((max 1 learnings.length : ℕ) : ℚ) * 2) with hcsdef
      set ds := min 1 (((pySplit ((" ".intercalate learnings).data.map pyLowerChar)).dedup.length : ℚ) / ((max 1 (pySplit (" ".intercalate learnings).data).length : ℕ) : ℚ) * 3) with hdsdef
      show _ 
      nlinarith [hls0, hls1, hcs0, hcs1, hds0, hds1]

theorem C10_estimate_info_quality_range_witness :
    AutoTuner.estimate_info_quality [] [] = 0 ∧
    0 ≤ AutoTuner.estimate_info_quality ["abc", ""] [] ∧
    AutoTuner.estimate_info_quality ["abc", ""] [] ≤ 1 :=
  ⟨(C10_estimate_info_quality_range [] []).2.2 rfl,
   (C10_estimate_info_quality_range ["abc", ""] []).1,
   (C10_estimate_info_quality_range ["abc", ""] []).2.1⟩

/-! ## C2: a run with `depth = 1` never recurses -/

/-- At depth 1 the loop body never recurses: the recursion guard
`current_depth > 1` is false, so the entry count is left unchanged. -/
theorem iterStep_entries_at_depth_one (env : Env) (auto_tune : Bool)
    (max_depth max_breadth current_breadth : ℤ)
    (recurse : ℕ → String → ℤ → ℤ → Memory → Progress → ℕ × Memory × Progress × ℕ)
    (acc : ℕ × Memory × Progress × ℕ) (sq : SerpQuery) :
    (iterStep env auto_tune max_depth max_breadth 1 current_breadth recurse acc sq).1 =
      acc.1 := by
  obtain ⟨cnt, mm, pg, kk⟩ := acc
  unfold iterStep
  rcases h : ResearchEngine.execute_query env kk sq 1 current_breadth mm pg with ⟨qr, mm2, pg2⟩
  simp

/-- Folding the depth-1 loop body over any query list adds no entries. -/
theorem foldl_iterStep_entries_at_depth_one (env : Env) (auto_tune : Bool)
    (max_depth max_breadth current_breadth : ℤ)
    (recurse : ℕ → String → ℤ → ℤ → Memory → Progress → ℕ × Memory × Progress × ℕ)
    (qs : List SerpQuery) :
    ∀ acc : ℕ × Memory × Progress × ℕ,
      (qs.foldl (iterStep env auto_tune max_depth max_breadth 1 current_breadth recurse)
        acc).1 = acc.1 := by
  induction qs with
  | nil => intro acc; rfl
  | cons q qs ih =>
    intro acc
    rw [List.foldl_cons, ih]
    exact iterStep_entries_at_depth_one env auto_tune max_depth max_breadth
      current_breadth recurse acc q

/-- A single iteration at depth 1 counts exactly its own entry. -/
theorem iteration_entries_at_depth_one (env : Env) (auto_tune : Bool)
    (max_depth max_breadth current_breadth : ℤ) (fuel k : ℕ) (q : String)
    (mem : Memory) (prog : Progress) :
    (ResearchEngine.execute_research_iteration env auto_tune max_depth max_breadth
      (fuel + 1) k q 1 current_breadth mem prog).1 = 1 := by
  unfold ResearchEngine.execute_research_iteration
  by_cases hf : env.serpFails k
  · simp [hf]
  · rw [Bool.not_eq_true] at hf
    simp only [hf, Bool.false_eq_true, if_false]
    split
    · rfl
    · dsimp only
      rw [foldl_iterStep_entries_at_depth_one]
      rfl

/-- C2: for every environment (hence for every number of follow-up
questions returned by learning extraction), every breadth argument and
every fuel bound, a run of `deep_research` started with `depth = 1`
enters `execute_research_iteration` exactly once: the top-level
invocation performs zero recursive follow-up calls. -/
theorem C2_depth_one_never_recurses (env : Env) (auto_tune : Bool)
    (max_depth max_breadth : ℤ) (query : String) (breadth : Option ℤ) (fuel : ℕ) :
    deepResearchEntries env auto_tune max_depth max_breadth (fuel + 1) query
      breadth (some 1) = 1 := by
  unfold deepResearchEntries ResearchEngine.deep_research
  have hone : pyOrInt (some 1) = fun _ => 1 := by
    funext d; simp [pyOrInt]
  by_cases hc : (auto_tune && (breadth.isNone || (some (1 : ℤ)).isNone)) = true
  · simp only [hc, if_pos, hone]
    exact iteration_entries_at_depth_one env auto_tune max_depth max_breadth _ fuel 0 query _ _
  · simp only [Bool.not_eq_true] at hc
    simp only [hc, Bool.false_eq_true, if_false, hone]
    exact iteration_entries_at_depth_one env auto_tune max_depth max_breadth _ fuel 0 query _ _

/-! ## C1: shape of the public entry point result -/

/-- A concrete environment with constant trivial oracles, used to
instantiate engine-level statements. -/
def trivialEnv : Env :=
  { serpQueries := fun _ => []
    serpFails := fun _ => false
    searchUrls := fun _ => []
    searchLog := fun _ => []
    scrapeLog := fun _ => []
    scrapedUrls := fun _ => []
    processNoContent := fun _ => false
    processFails := fun _ => false
    processLearnings := fun _ => ⟨[], []⟩
    evaluations := fun _ => []
    validationLog := fun _ => []
    queryRaises := fun _ => false
    errMsg := fun _ => ""
    timeUsage := fun _ => 0 }

/-- C1 counterexample: when the engine construction or the research run
raises (here with message text `boom`), the dictionary returned by the
public entry point has only the three keys `learnings`, `visited_urls`
and `chain_of_thought` — the fields `information_map`, `contradictions`
and `source_evaluations` are absent, so the result does not contain all
six fields. -/
theorem C1_counterexample :
    ((deep_research trivialEnv (some "boom") "q" none none false 5 8 1).map
      Prod.fst = ["learnings", "visited_urls", "chain_of_thought"]) ∧
    "information_map" ∉
      (deep_research trivialEnv (some "boom") "q" none none false 5 8 1).map
        Prod.fst := by
  constructor
  · rfl
  · decide

/-- C1 (amended): the public entry point is total (no exception reaches
the caller).  On a successful run its dictionary carries exactly the six
keys `learnings`, `visited_urls`, `chain_of_thought`, `information_map`,
`contradictions` and `source_evaluations`, in that order.  When engine
construction or the research run raises, the dictionary instead carries
exactly the three keys `learnings`, `visited_urls` and
`chain_of_thought`, with `learnings` holding the single human-readable
string `Research error: ...` and `chain_of_thought` recording the
critical failure.  (The original claim asserted all six fields in the
failure case as well; the counterexample shows the failure dictionary
omits the last three.) -/
theorem C1_entry_point_shape (env : Env) (query : String)
    (breadth depth : Option ℤ) (auto_tune : Bool) (max_depth max_breadth : ℤ)
    (fuel : ℕ) :
    (∀ e, deep_research env (some e) query breadth depth auto_tune max_depth
        max_breadth fuel =
      [("learnings", RVal.strs ["Research error: " ++ e]),
       ("visited_urls", RVal.strs []),
       ("chain_of_thought", RVal.strs ["Critical error in research process: " ++ e])]) ∧
    (deep_research env none query breadth depth auto_tune max_depth max_breadth
        fuel).map Prod.fst =
      ["learnings", "visited_urls", "chain_of_thought", "information_map",
       "contradictions", "source_evaluations"] := by
  constructor
  · intro e; rfl
  · rfl

theorem C1_entry_point_shape_witness :
    deep_research trivialEnv (some "model missing") "q" none none false 5 8 1 =
      [("learnings", RVal.strs ["Research error: " ++ "model missing"]),
       ("visited_urls", RVal.strs []),
       ("chain_of_thought",
        RVal.strs ["Critical error in research process: " ++ "model missing"])] ∧
    (deep_research trivialEnv none "q" none none false 5 8 1).map Prod.fst =
      ["learnings", "visited_urls", "chain_of_thought", "information_map",
       "contradictions", "source_evaluations"] :=
  ⟨(C1_entry_point_shape trivialEnv "q" none none false 5 8 1).1 "model missing",
   (C1_entry_point_shape trivialEnv "q" none none false 5 8 1).2⟩

/-! ## C8: performance contradiction detection -/

/-- Every record produced by the event-date block carries the topic
`Event Dates`. -/
theorem eventBlock_topic (learnings : List String) (new_learning : String)
    (c : Contradiction) (h : c ∈ eventBlock learnings new_learning) :
    c.topic = "Event Dates" := by
  unfold eventBlock at h
  split at h
  · obtain ⟨a, _, ha⟩ := List.mem_filterMap.mp h
    split at ha
    · dsimp only at ha
      split at ha
      · simp only [Option.some.injEq] at ha
        subst ha
        rfl
      · exact absurd ha (by simp)
    · exact absurd ha (by simp)
  · exact absurd h (List.not_mem_nil c)

/-- Every record produced by the layoff block carries the topic
`Layoff Timeline`. -/
theorem layoffBlock_topic (learnings : List String) (new_learning : String)
    (c : Contradiction) (h : c ∈ layoffBlock learnings new_learning) :
    c.topic = "Layoff Timeline" := by
  unfold layoffBlock at h
  split at h
  · obtain ⟨a, _, ha⟩ := List.mem_filterMap.mp h
    split at ha
    · dsimp only at ha
      split at ha
      · simp only [Option.some.injEq] at ha
        subst ha
        rfl
      · exact absurd ha (by simp)
    · exact absurd ha (by simp)
  · exact absurd h (List.not_mem_nil c)

/-- C8 (amended): starting from a memory whose learnings are exactly one
learning containing `positive` and `growth`, running
`detect_contradictions` on a new learning that contains `negative` and
`decline` and shares a performance keyword with the existing learning
records exactly one contradiction with topic `Performance` (the
performance family fires once for the single existing learning; the
event-date and layoff families may additionally record contradictions
with their own distinct topics when their keywords are also present,
which is what the counterexample exhibits against the original claim of
exactly one record in total). -/
theorem C8_performance_contradiction (e n : String)
    (h1 : strIn "positive".data (pyLower e) = true)
    (h2 : strIn "growth".data (pyLower e) = true)
    (h3 : strIn "negative".data (pyLower n) = true)
    (h4 : strIn "decline".data (pyLower n) = true)
    (h5 : ∃ kw ∈ performance_keywords,
      strIn kw.data (pyLower n) = true ∧ strIn kw.data (pyLower e) = true) :
    ((ResearchEngine.detect_contradictions [e] n).filter
      (fun c => c.topic == "Performance")).length = 1 := by
  obtain ⟨kw, hkwmem, hkwn, hkwe⟩ := h5
  have hperfN : anyKw performance_keywords (pyLower n) = true :=
    List.any_eq_true.mpr ⟨kw, hkwmem, hkwn⟩
  have hperfE : anyKw performance_keywords (pyLower e) = true :=
    List.any_eq_true.mpr ⟨kw, hkwmem, hkwe⟩
  have hnn : anyKw negative_terms (pyLower n) = true :=
    List.any_eq_true.mpr ⟨"decline", by decide, h4⟩
  have hep : anyKw positive_terms (pyLower e) = true :=
    List.any_eq_true.mpr ⟨"positive", by decide, h1⟩
  have hperf : perfBlock [e] n = [{ topic := "Performance", claim1 := e, claim2 := n }] := by
    unfold perfBlock
    rw [if_pos hperfN]
    simp only [List.filterMap_cons, List.filterMap_nil]
    rw [if_pos hperfE]
    rw [if_pos (by rw [hnn, hep]; simp)]
  have hev : (eventBlock [e] n).filter (fun c => c.topic == "Performance") = [] := by
    apply List.filter_eq_nil_iff.mpr
    intro c hc
    have := eventBlock_topic [e] n c hc
    simp [this]
  have hlay : (layoffBlock [e] n).filter (fun c => c.topic == "Performance") = [] := by
    apply List.filter_eq_nil_iff.mpr
    intro c hc
    have := layoffBlock_topic [e] n c hc
    simp [this]
  unfold ResearchEngine.detect_contradictions
  rw [if_neg (by simp : ¬([e] = ([] : List String)))]
  rw [List.filter_append, List.filter_append, hperf, hev, hlay]
  rfl

theorem C8_performance_contradiction_witness :
    (strIn "positive".data (pyLower "Revenue shows positive growth") = true) ∧
    (strIn "growth".data (pyLower "Revenue shows positive growth") = true) ∧
    (strIn "negative".data (pyLower "Revenue shows negative decline") = true) ∧
    (strIn "decline".data (pyLower "Revenue shows negative decline") = true) ∧
    ((ResearchEngine.detect_contradictions ["Revenue shows positive growth"]
        "Revenue shows negative decline").filter
      (fun c => c.topic == "Performance")).length = 1 :=
  ⟨by decide, by decide, by decide, by decide,
    C8_performance_contradiction "Revenue shows positive growth"
      "Revenue shows negative decline" (by decide) (by decide) (by decide) (by decide)
      ⟨"revenue", by decide, by decide, by decide⟩⟩

/-- C8 counterexample: with the existing learning
`positive growth layoff plan` and the new learning
`negative decline growth layoff completed` — which satisfy every
condition of the claim (the existing learning contains `positive` and
`growth`, the new learning contains `negative` and `decline` and shares
the performance keyword `growth`) — `detect_contradictions` records two
contradictions (the layoff family fires in addition to the performance
family), so it does not record exactly one. -/
theorem C8_counterexample :
    (strIn "positive".data (pyLower "positive growth layoff plan") = true) ∧
    (strIn "growth".data (pyLower "positive growth layoff plan") = true) ∧
    (strIn "negative".data (pyLower "negative decline growth layoff completed") = true) ∧
    (strIn "decline".data (pyLower "negative decline growth layoff completed") = true) ∧
    ("growth" ∈ performance_keywords ∧
      strIn "growth".data (pyLower "negative decline growth layoff completed") = true ∧
      strIn "growth".data (pyLower "positive growth layoff plan") = true) ∧
    (ResearchEngine.detect_contradictions ["positive growth layoff plan"]
      "negative decline growth layoff completed").length = 2 := by
  refine ⟨by decide, by decide, by decide, by decide, ⟨by decide, by decide, by decide⟩, ?_⟩
  decide

/-! ## C5 and C6: content-classifier validators -/

/-- `find?` returns the head of the filtered list: the first element
satisfying the predicate, in list order. -/
theorem find?_eq_head_filter {α : Type} (p : α → Bool) (l : List α) :
    l.find? p = (l.filter p).head? := by
  induction l with
  | nil => rfl
  | cons a l ih =>
    rw [List.find?_cons, List.filter_cons]
    by_cases h : p a = true
    · simp [h]
    · simp only [Bool.not_eq_true] at h
      rw [h]
      simpa using ih

/-- C5: with reference date 2024-03-15, the text
`scheduled for January 2023` is rejected with a message containing
`should have already occurred`, and `upcoming conference in December
2024` is accepted.  In general, for every reference date and every
text: if some scanned upcoming or scheduled match has its first-of-month
event date strictly before the reference date, validation fails; the
first violating upcoming match (in scan order) determines the result
and its `past event as upcoming` message; when no upcoming match
violates, the first violating scheduled match determines the result and
its `should have already occurred` message; with no violation at all
the validator accepts with the fixed success message. -/
theorem C5_temporal_consistency :
    ((ContentClassifier.validate_temporal_consistency ⟨2024, 3, 15⟩
        "scheduled for January 2023").1 = false ∧
      strIn "should have already occurred".data
        (ContentClassifier.validate_temporal_consistency ⟨2024, 3, 15⟩
          "scheduled for January 2023").2.data = true) ∧
    (ContentClassifier.validate_temporal_consistency ⟨2024, 3, 15⟩
      "upcoming conference in December 2024").1 = true ∧
    (∀ (d : PyDate) (text : String),
      ((∃ m ∈ upFindAll text.data, temporalViol d m) ∨
        (∃ m ∈ schedFindAll text.data, temporalViol d m)) →
      (ContentClassifier.validate_temporal_consistency d text).1 = false) ∧
    (∀ (d : PyDate) (text : String) (m : REMatch),
      ((upFindAll text.data).filter (temporalViol d)).head? = some m →
      ContentClassifier.validate_temporal_consistency d text =
        (false, "Temporal inconsistency: " ++ apos ++ group0 text.data m ++ apos ++
          " refers to a past event as upcoming")) ∧
    (∀ (d : PyDate) (text : String) (m : REMatch),
      (upFindAll text.data).filter (temporalViol d) = [] →
      ((schedFindAll text.data).filter (temporalViol d)).head? = some m →
      ContentClassifier.validate_temporal_consistency d text =
        (false, "Temporal inconsistency: " ++ apos ++ group0 text.data m ++ apos ++
          " refers to a scheduled event that should have already occurred")) ∧
    (∀ (d : PyDate) (text : String),
      (upFindAll text.data).filter (temporalViol d) = [] →
      (schedFindAll text.data).filter (temporalViol d) = [] →
      ContentClassifier.validate_temporal_consistency d text =
        (true, "No temporal inconsistencies detected")) := by
  have hup : ∀ (d : PyDate) (text : String) (m : REMatch),
      ((upFindAll text.data).filter (temporalViol d)).head? = some m →
      ContentClassifier.validate_temporal_consistency d text =
        (false, "Temporal inconsistency: " ++ apos ++ group0 text.data m ++ apos ++
          " refers to a past event as upcoming") := by
    intro d text m h
    unfold ContentClassifier.validate_temporal_consistency
    dsimp only
    rw [find?_eq_head_filter, h]
  have hsch : ∀ (d : PyDate) (text : String) (m : REMatch),
      (upFindAll text.data).filter (temporalViol d) = [] →
      ((schedFindAll text.data).filter (temporalViol d)).head? = some m →
      ContentClassifier.validate_temporal_consistency d text =
        (false, "Temporal inconsistency: " ++ apos ++ group0 text.data m ++ apos ++
          " refers to a scheduled event that should have already occurred") := by
    intro d text m h1 h2
    unfold ContentClassifier.validate_temporal_consistency
    dsimp only
    rw [find?_eq_head_filter, h1, find?_eq_head_filter, h2]
    rfl
  have hok : ∀ (d : PyDate) (text : String),
      (upFindAll text.data).filter (temporalViol d) = [] →
      (schedFindAll text.data).filter (temporalViol d) = [] →
      ContentClassifier.validate_temporal_consistency d text =
        (true, "No temporal inconsistencies detected") := by
    intro d text h1 h2
    unfold ContentClassifier.validate_temporal_consistency
    dsimp only
    rw [find?_eq_head_filter, h1, find?_eq_head_filter, h2]
    rfl
  refine ⟨⟨by decide, by decide⟩, by decide, ?_, hup, hsch, hok⟩
  intro d text hex
  cases hu : (upFindAll text.data).filter (temporalViol d) with
  | cons m rest => rw [hup d text m (by rw [hu]; rfl)]
  | nil =>
    cases hs : (schedFindAll text.data).filter (temporalViol d) with
    | cons m rest => rw [hsch d text m hu (by rw [hs]; rfl)]
    | nil =>
      exfalso
      rcases hex with ⟨m, hm, hv⟩ | ⟨m, hm, hv⟩
      · exact absurd hu (by
          apply List.ne_nil_of_mem (a := m)
          exact List.mem_filter.mpr ⟨hm, hv⟩)
      · exact absurd hs (by
          apply List.ne_nil_of_mem (a := m)
          exact List.mem_filter.mpr ⟨hm, hv⟩)

theorem C5_temporal_consistency_witness :
    ContentClassifier.validate_temporal_consistency ⟨2024, 3, 15⟩
        "upcoming event in May 2023" =
      (false, "Temporal inconsistency: " ++ apos ++
        group0 ("upcoming event in May 2023" : String).data
          ⟨0, 26, "may", 2023⟩ ++ apos ++
        " refers to a past event as upcoming") :=
  C5_temporal_consistency.2.2.2.1 ⟨2024, 3, 15⟩ "upcoming event in May 2023"
    ⟨0, 26, "may", 2023⟩ (by decide)

/-- C6: with reference year 2024, `By 2035, the market will reach
exactly $42.75 billion` is rejected and `By 2026, $2 billion` is
accepted.  In general, for every reference date and every text, the
numerical validator rejects exactly when some scanned projection match
(a by/in/reach/hitting phrase, a year in 2030-2099, then a numeric
literal) is more than 10 years after the reference year and its
captured literal, commas removed, contains a decimal point; the first
such match (in scan order) determines the result and its message. -/
theorem C6_numerical_reasonableness :
    (ContentClassifier.validate_numerical_reasonableness ⟨2024, 3, 15⟩
      "By 2035, the market will reach exactly $42.75 billion").1 = false ∧
    (ContentClassifier.validate_numerical_reasonableness ⟨2024, 3, 15⟩
      "By 2026, $2 billion").1 = true ∧
    (∀ (d : PyDate) (text : String),
      (ContentClassifier.validate_numerical_reasonableness d text).1 = false ↔
        ∃ m ∈ numFindAll text.data, 10 < yearsAhead d m ∧
          (m.value.filter (fun c => !(c == ','))).contains '.' = true) ∧
    (∀ (d : PyDate) (text : String) (m : NumMatch),
      ((numFindAll text.data).filter (numViol d)).head? = some m →
      ContentClassifier.validate_numerical_reasonableness d text =
        (false, "Unreasonable precision: " ++ apos ++
          String.mk ((text.data.take m.stop).drop m.start) ++ apos ++
          " has decimal precision for a " ++ toString (yearsAhead d m) ++
          "-year forecast")) := by
  have hviol : ∀ (d : PyDate) (m : NumMatch), numViol d m = true ↔
      (10 < yearsAhead d m ∧
        (m.value.filter (fun c => !(c == ','))).contains '.' = true) := by
    intro d m
    unfold numViol
    rw [Bool.and_eq_true, decide_eq_true_iff]
  have hfirst : ∀ (d : PyDate) (text : String) (m : NumMatch),
      ((numFindAll text.data).filter (numViol d)).head? = some m →
      ContentClassifier.validate_numerical_reasonableness d text =
        (false, "Unreasonable precision: " ++ apos ++
          String.mk ((text.data.take m.stop).drop m.start) ++ apos ++
          " has decimal precision for a " ++ toString (yearsAhead d m) ++
          "-year forecast") := by
    intro d text m h
    unfold ContentClassifier.validate_numerical_reasonableness
    dsimp only
    rw [find?_eq_head_filter, h]
  refine ⟨by decide, by decide, ?_, hfirst⟩
  intro d text
  cases hh : (numFindAll text.data).filter (numViol d) with
  | cons m rest =>
    rw [hfirst d text m (by rw [hh]; rfl)]
    simp only [true_iff]
    have hm : m ∈ (numFindAll text.data).filter (numViol d) := by
      rw [hh]; exact List.mem_cons_self m rest
    obtain ⟨hmem, hv⟩ := List.mem_filter.mp hm
    exact ⟨m, hmem, (hviol d m).mp hv⟩
  | nil =>
    unfold ContentClassifier.validate_numerical_reasonableness
    dsimp only
    rw [find?_eq_head_filter, hh]
    simp only [List.head?_nil]
    constructor
    · intro hfalse
      exact absurd hfalse (by decide)
    · rintro ⟨m, hmem, hv⟩
      exfalso
      have : m ∈ (numFindAll text.data).filter (numViol d) :=
        List.mem_filter.mpr ⟨hmem, (hviol d m).mpr hv⟩
      rw [hh] at this
      exact List.not_mem_nil m this

theorem C6_numerical_reasonableness_witness :
    ContentClassifier.validate_numerical_reasonableness ⟨2024, 3, 15⟩
        "reach 2040 at $1.5" =
      (false, "Unreasonable precision: " ++ apos ++
        String.mk ((("reach 2040 at $1.5" : String).data.take 18).drop 0) ++ apos ++
        " has decimal precision for a " ++
        toString (yearsAhead ⟨2024, 3, 15⟩ ⟨0, 18, 2040, ['1', '.', '5']⟩) ++
        "-year forecast") :=
  C6_numerical_reasonableness.2.2.2 ⟨2024, 3, 15⟩ "reach 2040 at $1.5"
    ⟨0, 18, 2040, ['1', '.', '5']⟩ (by decide)

/-! ## C9: monotonicity of the complexity score

Basic facts about the runs and the match/scan step equations. -/

theorem runLower_le_length : ∀ l : List Char, runLower l ≤ l.length := by
  intro l
  induction l with
  | nil => simp [runLower]
  | cons a t ih =>
    rw [runLower]
    split
    · simpa using ih
    · simp

theorem runUpper_le_length : ∀ l : List Char, runUpper l ≤ l.length := by
  intro l
  induction l with
  | nil => simp [runUpper]
  | cons a t ih =>
    rw [runUpper]
    split
    · simpa using ih
    · simp

theorem entityMatchAt_sub_le {c : Char} {cs : List Char} {l : ℕ}
    (h : entityMatchAt (c :: cs) = some l) : l - 1 ≤ cs.length := by
  have hrl := runLower_le_length cs
  have hru := runUpper_le_length cs
  unfold entityMatchAt at h
  dsimp only at h
  by_cases hu : isUpperAZ c = true
  · rw [if_pos hu] at h
    by_cases hr : 0 < runLower cs
    · rw [if_pos hr] at h
      rcases hrest : cs.drop (runLower cs) with _ | ⟨sep, rest1⟩
      · rw [hrest] at h
        simp only [Option.some.injEq] at h
        omega
      · rcases rest1 with _ | ⟨u, rest2⟩
        · rw [hrest] at h
          simp only [Option.some.injEq] at h
          omega
        · rw [hrest] at h
          dsimp only at h
          have hlen : cs.length = runLower cs + 2 + rest2.length := by
            have h2 := congrArg List.length hrest
            simp only [List.length_drop, List.length_cons] at h2
            omega
          have hr2 := runLower_le_length rest2
          by_cases hcond : ((sep == ' ' || sep == '.') && isUpperAZ u && decide (0 < runLower rest2)) = true
          · rw [if_pos hcond] at h
            simp only [Option.some.injEq] at h
            omega
          · rw [if_neg hcond] at h
            simp only [Option.some.injEq] at h
            omega
    · rw [if_neg hr] at h
      split at h
      · simp only [Option.some.injEq] at h
        omega
      · exact absurd h (by simp)
  · rw [if_neg hu] at h
    exact absurd h (by simp)

theorem entityScanF_fuel : ∀ f1 f2 (l : List Char), l.length ≤ f1 → l.length ≤ f2 →
    entityScanF f1 l = entityScanF f2 l := by
  intro f1
  induction f1 with
  | zero =>
    intro f2 l h1 _
    have : l = [] := List.eq_nil_of_length_eq_zero (Nat.le_zero.mp h1)
    subst this
    cases f2 <;> rfl
  | succ f ih =>
    intro f2 l h1 h2
    cases l with
    | nil => cases f2 <;> rfl
    | cons c cs =>
      cases f2 with
      | zero => simp at h2
      | succ g =>
        simp only [entityScanF]
        cases h : entityMatchAt (c :: cs) with
        | none =>
          exact ih g cs (by simpa using h1) (by simpa using h2)
        | some l =>
          dsimp only
          have hd : (cs.drop (l - 1)).length ≤ cs.length := by
            simp
          rw [ih g _ (le_trans hd (by simpa using h1)) (le_trans hd (by simpa using h2))]

theorem entityCount_nil : entityCount [] = 0 := rfl

theorem entityCount_cons_none {c : Char} {cs : List Char}
    (h : entityMatchAt (c :: cs) = none) : entityCount (c :: cs) = entityCount cs := by
  unfold entityCount
  simp only [List.length_cons, entityScanF, h]

theorem entityCount_cons_some {c : Char} {cs : List Char} {l : ℕ}
    (h : entityMatchAt (c :: cs) = some l) :
    entityCount (c :: cs) = 1 + entityCount (cs.drop (l - 1)) := by
  unfold entityCount
  simp only [List.length_cons, entityScanF, h]
  rw [entityScanF_fuel cs.length (cs.drop (l - 1)).length (cs.drop (l - 1))
    (by simp) (le_refl _)]

/-! Character-class facts and elementary scan equations. -/

theorem lower_not_upper {c : Char} (h : isLowerAZ c = true) : isUpperAZ c = false := by
  unfold isLowerAZ at h
  unfold isUpperAZ
  rw [Bool.and_eq_true, decide_eq_true_iff, decide_eq_true_iff] at h
  rw [Bool.and_eq_false_iff]
  right
  rw [decide_eq_false_iff_not]
  omega

theorem upper_not_lower {c : Char} (h : isUpperAZ c = true) : isLowerAZ c = false := by
  unfold isUpperAZ at h
  unfold isLowerAZ
  rw [Bool.and_eq_true, decide_eq_true_iff, decide_eq_true_iff] at h
  rw [Bool.and_eq_false_iff]
  left
  rw [decide_eq_false_iff_not]
  omega

theorem sep_not_upper {sep : Char} (h : (sep == ' ' || sep == '.') = true) :
    isUpperAZ sep = false := by
  rw [Bool.or_eq_true, beq_iff_eq, beq_iff_eq] at h
  rcases h with h | h <;> subst h <;> decide

theorem entityMatchAt_cons_not_upper {c : Char} (cs : List Char)
    (h : isUpperAZ c = false) : entityMatchAt (c :: cs) = none := by
  unfold entityMatchAt
  dsimp only
  rw [if_neg (by simp [h])]

theorem entityCount_cons_not_upper {c : Char} (cs : List Char)
    (h : isUpperAZ c = false) : entityCount (c :: cs) = entityCount cs :=
  entityCount_cons_none (entityMatchAt_cons_not_upper cs h)

theorem entityCount_lower_append {p : List Char} (t : List Char)
    (h : ∀ c ∈ p, isLowerAZ c = true) : entityCount (p ++ t) = entityCount t := by
  induction p with
  | nil => rfl
  | cons a q ih =>
    rw [List.cons_append,
      entityCount_cons_not_upper _ (lower_not_upper (h a (List.mem_cons_self a q))),
      ih (fun c hc => h c (List.mem_cons_of_mem a hc))]

theorem take_runLower_lower : ∀ (l : List Char), ∀ c ∈ l.take (runLower l),
    isLowerAZ c = true := by
  intro l
  induction l with
  | nil => simp
  | cons a t ih =>
    rw [runLower]
    split
    · rename_i ha
      intro c hc
      rw [List.take_succ_cons] at hc
      rcases List.mem_cons.mp hc with rfl | hc
      · exact ha
      · exact ih c hc
    · simp

theorem runLower_zero_of_runUpper_pos {t : List Char} (h : 0 < runUpper t) :
    runLower t = 0 := by
  cases t with
  | nil => rfl
  | cons a s =>
    rw [runUpper] at h
    rw [runLower]
    split at h
    · rename_i ha
      rw [if_neg (by simp [upper_not_lower ha])]
    · omega

theorem runUpper_zero_of_runLower_pos {t : List Char} (h : 0 < runLower t) :
    runUpper t = 0 := by
  cases t with
  | nil => rfl
  | cons a s =>
    rw [runLower] at h
    rw [runUpper]
    split at h
    · rename_i ha
      rw [if_neg (by simp [lower_not_upper ha])]
    · omega

theorem entityMatchAt_AC {b : Char} {t : List Char} (hb : isUpperAZ b = true)
    (hru : 0 < runUpper t) : entityMatchAt (b :: t) = some (1 + runUpper t) := by
  unfold entityMatchAt
  dsimp only
  rw [if_pos hb, if_neg (by simp [runLower_zero_of_runUpper_pos hru]), if_pos hru]

theorem entityMatchAt_upper_lowerpos {u : Char} {t : List Char}
    (hu : isUpperAZ u = true) (hr : 0 < runLower t) :
    ∃ l2, entityMatchAt (u :: t) = some l2 ∧ runLower t ≤ l2 - 1 ∧ l2 - 1 ≤ t.length := by
  have hmain : ∃ l2, entityMatchAt (u :: t) = some l2 ∧ runLower t ≤ l2 - 1 := by
    unfold entityMatchAt
    dsimp only
    rw [if_pos hu, if_pos hr]
    rcases hrest : t.drop (runLower t) with _ | ⟨sep, rest1⟩
    · exact ⟨1 + runLower t, rfl, by omega⟩
    · rcases rest1 with _ | ⟨v, rest2⟩
      · exact ⟨1 + runLower t, rfl, by omega⟩
      · dsimp only
        by_cases hcond : ((sep == ' ' || sep == '.') && isUpperAZ v &&
            decide (0 < runLower rest2)) = true
        · rw [if_pos hcond]
          exact ⟨1 + runLower t + 2 + runLower rest2, rfl, by omega⟩
        · rw [if_neg hcond]
          exact ⟨1 + runLower t, rfl, by omega⟩
  obtain ⟨l2, h1, h2⟩ := hmain
  exact ⟨l2, h1, h2, entityMatchAt_sub_le h1⟩

theorem entityCount_singleton (c : Char) : entityCount [c] = 0 := by
  have hm : entityMatchAt [c] = none := by
    unfold entityMatchAt
    dsimp only
    by_cases hu : isUpperAZ c = true
    · rw [if_pos hu]
      rw [if_neg (by simp [runLower]), if_neg (by simp [runUpper])]
    · rw [if_neg hu]
  rw [entityCount_cons_none hm, entityCount_nil]

theorem entityMatchAt_cons_eq {c : Char} {cs : List Char} {sep u : Char}
    {rest2 : List Char} (ha : isUpperAZ c = true) (hr : 0 < runLower cs)
    (hrest : cs.drop (runLower cs) = sep :: u :: rest2) :
    entityMatchAt (c :: cs) =
      if ((sep == ' ' || sep == '.') && isUpperAZ u && decide (0 < runLower rest2)) = true then
        some (1 + runLower cs + 2 + runLower rest2)
      else some (1 + runLower cs) := by
  unfold entityMatchAt
  dsimp only
  rw [if_pos ha, if_pos hr, hrest]

/-! Prepending a character cannot decrease the match count. -/

theorem entityCount_all_lower {w : List Char} (h : ∀ c ∈ w, isLowerAZ c = true) :
    entityCount w = 0 := by
  have := entityCount_lower_append ([] : List Char) h
  rw [List.append_nil] at this
  rw [this, entityCount_nil]

theorem all_lower_of_drop_runLower_nil {w : List Char}
    (h : w.drop (runLower w) = []) : ∀ c ∈ w, isLowerAZ c = true := by
  have hlen : runLower w = w.length := by
    have h1 := congrArg List.length h
    simp only [List.length_drop, List.length_nil] at h1
    have := runLower_le_length w
    omega
  intro c hc
  apply take_runLower_lower w
  rw [hlen, List.take_length]
  exact hc

theorem entityCount_eq_drop_runLower (w : List Char) :
    entityCount w = entityCount (w.drop (runLower w)) := by
  conv_lhs => rw [← List.take_append_drop (runLower w) w]
  exact entityCount_lower_append _ (take_runLower_lower w)

theorem entityCount_le_cons_aux (a : Char) (w : List Char)
    (IH : ∀ x s : List Char, x.length + s.length ≤ w.length →
      entityCount s ≤ entityCount (x ++ s)) :
    entityCount w ≤ entityCount (a :: w) := by
  cases hm : entityMatchAt (a :: w) with
  | none => rw [entityCount_cons_none hm]
  | some l =>
    rw [entityCount_cons_some hm]
    have ha : isUpperAZ a = true := by
      by_contra hna
      rw [entityMatchAt_cons_not_upper w (by simpa using hna)] at hm
      exact absurd hm (by simp)
    unfold entityMatchAt at hm
    dsimp only at hm
    rw [if_pos ha] at hm
    by_cases hr : 0 < runLower w
    · rw [if_pos hr] at hm
      rcases hrest : w.drop (runLower w) with _ | ⟨sep, rest1⟩
      · -- the lowercase run reaches the end of w: w scans to zero
        rw [entityCount_all_lower (all_lower_of_drop_runLower_nil hrest)]
        omega
      · rcases rest1 with _ | ⟨u, rest2⟩
        · -- a single character after the run: w scans to zero
          have hw0 : entityCount w = 0 := by
            rw [entityCount_eq_drop_runLower w, hrest, entityCount_singleton]
          rw [hw0]
          omega
        · rw [hrest] at hm
          dsimp only at hm
          have hwlen : w.length = runLower w + 2 + rest2.length := by
            have h2 := congrArg List.length hrest
            simp only [List.length_drop, List.length_cons] at h2
            have := runLower_le_length w
            omega
          by_cases hcond : ((sep == ' ' || sep == '.') && isUpperAZ u &&
              decide (0 < runLower rest2)) = true
          · -- the two-word alternative matched
            rw [if_pos hcond] at hm
            simp only [Option.some.injEq] at hm
            rw [Bool.and_eq_true, Bool.and_eq_true] at hcond
            obtain ⟨⟨hsep, hu2⟩, hr2⟩ := hcond
            rw [decide_eq_true_iff] at hr2
            -- the scan of w reaches the second word and matches there
            obtain ⟨l2, hm2, hl2a, hl2b⟩ := entityMatchAt_upper_lowerpos hu2 hr2
            have hscanw : entityCount w = 1 + entityCount (rest2.drop (l2 - 1)) := by
              rw [entityCount_eq_drop_runLower w, hrest,
                entityCount_cons_not_upper _ (sep_not_upper hsep),
                entityCount_cons_some hm2]
            have hdrop : w.drop (l - 1) = rest2.drop (runLower rest2) := by
              have hstep : w.drop (l - 1) =
                  (w.drop (runLower w)).drop (2 + runLower rest2) := by
                rw [List.drop_drop]
                congr 1
                omega
              rw [hstep, hrest,
                show (2 + runLower rest2) = runLower rest2 + 1 + 1 from by omega,
                List.drop_succ_cons, List.drop_succ_cons]
            have hdd : rest2.drop (l2 - 1) =
                (rest2.drop (runLower rest2)).drop (l2 - 1 - runLower rest2) := by
              rw [List.drop_drop]
              congr 1
              omega
            rw [hscanw, hdrop, hdd]
            have hIH : entityCount ((rest2.drop (runLower rest2)).drop
                (l2 - 1 - runLower rest2)) ≤
                entityCount (rest2.drop (runLower rest2)) := by
              have := IH ((rest2.drop (runLower rest2)).take (l2 - 1 - runLower rest2))
                ((rest2.drop (runLower rest2)).drop (l2 - 1 - runLower rest2))
                (by
                  rw [← List.length_append, List.take_append_drop, List.length_drop]
                  omega)
              rwa [List.take_append_drop] at this
            omega
          · -- no second word: the match is the single first word
            rw [if_neg hcond] at hm
            simp only [Option.some.injEq] at hm
            have hdrop : w.drop (l - 1) = sep :: u :: rest2 := by
              have : l - 1 = runLower w := by omega
              rw [this, hrest]
            rw [hdrop, entityCount_eq_drop_runLower w, hrest]
            omega
    · rw [if_neg hr] at hm
      by_cases hru : 0 < runUpper w
      · rw [if_pos hru] at hm
        simp only [Option.some.injEq] at hm
        cases w with
        | nil => simp [runUpper] at hru
        | cons b w1 =>
          have hb : isUpperAZ b = true := by
            rw [runUpper] at hru
            by_contra hnb
            rw [if_neg (by simpa using hnb)] at hru
            omega
          have hruw : runUpper (b :: w1) = runUpper w1 + 1 := by
            rw [runUpper, if_pos hb]
          by_cases h1u : 0 < runUpper w1
          · -- the acronym continues: the scan of w takes the same tail
            have hmw : entityMatchAt (b :: w1) = some (1 + runUpper w1) :=
              entityMatchAt_AC hb h1u
            rw [entityCount_cons_some hmw]
            have : (b :: w1).drop (l - 1) = w1.drop (runUpper w1) := by
              have h1 : l - 1 = runUpper w1 + 1 := by omega
              rw [h1]
              simp
            rw [this]
            simp
          · -- the acronym had length 2: w starts with a single uppercase
            have h1u0 : runUpper w1 = 0 := by omega
            have hld : (b :: w1).drop (l - 1) = w1 := by
              have h1 : l - 1 = 1 := by omega
              rw [h1]
              simp
            rw [hld]
            cases hm1 : entityMatchAt (b :: w1) with
            | none => rw [entityCount_cons_none hm1]; omega
            | some l2 =>
              rw [entityCount_cons_some hm1]
              have hIH : entityCount (w1.drop (l2 - 1)) ≤ entityCount w1 := by
                have := IH (w1.take (l2 - 1)) (w1.drop (l2 - 1))
                  (by
                    rw [← List.length_append, List.take_append_drop, List.length_cons]
                    omega)
                rwa [List.take_append_drop] at this
              omega
      · rw [if_neg hru] at hm
        exact absurd hm (by simp)

/-! Left extension: prepending any prefix cannot decrease the count. -/

theorem entityCount_le_append_left : ∀ x s : List Char,
    entityCount s ≤ entityCount (x ++ s) := by
  have key : ∀ n, ∀ x s : List Char, x.length + s.length ≤ n →
      entityCount s ≤ entityCount (x ++ s) := by
    intro n
    induction n using Nat.strong_induction_on with
    | _ n IHn =>
      intro x s hlen
      cases x with
      | nil => simp
      | cons a x1 =>
        simp only [List.length_cons] at hlen
        have h1 : entityCount s ≤ entityCount (x1 ++ s) := by
          cases n with
          | zero => omega
          | succ m => exact IHn m (by omega) x1 s (by omega)
        have h2 : entityCount (x1 ++ s) ≤ entityCount (a :: (x1 ++ s)) := by
          apply entityCount_le_cons_aux
          intro x2 s2 hb
          rw [List.length_append] at hb
          exact IHn (x1.length + s.length) (by omega) x2 s2 hb
        exact le_trans h1 (by simpa using h2)
  intro x s
  exact key (x.length + s.length) x s (le_refl _)

/-! Run lengths under right append. -/

theorem runLower_append (l y : List Char) :
    runLower (l ++ y) =
      if runLower l = l.length then l.length + runLower y else runLower l := by
  induction l with
  | nil => simp [runLower]
  | cons a t ih =>
    by_cases ha : isLowerAZ a = true
    · rw [List.cons_append, runLower, if_pos ha, runLower, if_pos ha, ih]
      by_cases ht : runLower t = t.length
      · rw [if_pos ht, if_pos (by simp [ht]), List.length_cons]
        omega
      · rw [if_neg ht, if_neg (by
          simp only [List.length_cons]
          omega)]
    · rw [List.cons_append, runLower, if_neg ha, runLower, if_neg ha,
        if_neg (by simp)]

theorem runUpper_append (l y : List Char) :
    runUpper (l ++ y) =
      if runUpper l = l.length then l.length + runUpper y else runUpper l := by
  induction l with
  | nil => simp [runUpper]
  | cons a t ih =>
    by_cases ha : isUpperAZ a = true
    · rw [List.cons_append, runUpper, if_pos ha, runUpper, if_pos ha, ih]
      by_cases ht : runUpper t = t.length
      · rw [if_pos ht, if_pos (by simp [ht]), List.length_cons]
        omega
      · rw [if_neg ht, if_neg (by
          simp only [List.length_cons]
          omega)]
    · rw [List.cons_append, runUpper, if_neg ha, runUpper, if_neg ha,
        if_neg (by simp)]

/-! Appending on the right preserves a match at the head (possibly with a
different extent); when the extent changes, everything the original
match left of the list scans to zero. -/

theorem entityMatchAt_append_dichotomy {c : Char} {cs : List Char} {l : ℕ}
    (y : List Char) (h : entityMatchAt (c :: cs) = some l) :
    entityMatchAt (c :: (cs ++ y)) = some l ∨ entityCount (cs.drop (l - 1)) = 0 := by
  have ha : isUpperAZ c = true := by
    by_contra hna
    rw [entityMatchAt_cons_not_upper cs (by simpa using hna)] at h
    exact absurd h (by simp)
  have hrl := runLower_le_length cs
  have hru := runUpper_le_length cs
  unfold entityMatchAt at h
  dsimp only at h
  rw [if_pos ha] at h
  by_cases hr : 0 < runLower cs
  · rw [if_pos hr] at h
    rcases hrest : cs.drop (runLower cs) with _ | ⟨sep, rest1⟩
    · -- the run reaches the end of cs: the tail after the match is empty
      rw [hrest] at h
      dsimp only at h
      simp only [Option.some.injEq] at h
      right
      have hlen : runLower cs = cs.length := by
        have h1 := congrArg List.length hrest
        simp only [List.length_drop, List.length_nil] at h1
        omega
      have : cs.drop (l - 1) = [] := by
        apply List.drop_eq_nil_of_le
        omega
      rw [this, entityCount_nil]
    · have hlt : runLower cs < cs.length := by
        have h1 := congrArg List.length hrest
        simp only [List.length_drop, List.length_cons] at h1
        omega
      have hrla : runLower (cs ++ y) = runLower cs := by
        rw [runLower_append, if_neg (by omega)]
      have hdy : (cs ++ y).drop (runLower (cs ++ y)) =
          (sep :: rest1) ++ y := by
        rw [hrla, List.drop_append_of_le_length (by omega), hrest]
      rcases rest1 with _ | ⟨u, rest2⟩
      · -- one character after the run: the tail after the match scans to 0
        rw [hrest] at h
        dsimp only at h
        simp only [Option.some.injEq] at h
        right
        have : cs.drop (l - 1) = [sep] := by
          rw [show l - 1 = runLower cs from by omega, hrest]
        rw [this, entityCount_singleton]
      · rw [hrest] at h
        dsimp only at h
        have hlen2 : cs.length = runLower cs + 2 + rest2.length := by
          have h1 := congrArg List.length hrest
          simp only [List.length_drop, List.length_cons] at h1
          omega
        by_cases hcond : ((sep == ' ' || sep == '.') && isUpperAZ u &&
            decide (0 < runLower rest2)) = true
        · rw [if_pos hcond] at h
          simp only [Option.some.injEq] at h
          by_cases hfull : runLower rest2 = rest2.length
          · -- the second word reaches the end of cs
            right
            have : cs.drop (l - 1) = [] := by
              apply List.drop_eq_nil_of_le
              omega
            rw [this, entityCount_nil]
          · -- the second word stops inside cs: the extent is unchanged
            left
            rw [Bool.and_eq_true, Bool.and_eq_true] at hcond
            obtain ⟨⟨hsep, hu2⟩, hr2⟩ := hcond
            rw [decide_eq_true_iff] at hr2
            have hr2a : runLower (rest2 ++ y) = runLower rest2 := by
              rw [runLower_append, if_neg hfull]
            rw [entityMatchAt_cons_eq ha (by omega : 0 < runLower (cs ++ y)) hdy]
            simp only [List.append_eq]
            rw [if_pos (by
              rw [Bool.and_eq_true, Bool.and_eq_true]
              refine ⟨⟨hsep, hu2⟩, ?_⟩
              rw [decide_eq_true_iff, hr2a]
              exact hr2)]
            simp only [Option.some.injEq]
            rw [hrla, hr2a]
            omega
        · rw [if_neg hcond] at h
          simp only [Option.some.injEq] at h
          by_cases hA : (sep == ' ' || sep == '.') = true
          swap
          · -- the separator test already fails, with or without y
            left
            rw [entityMatchAt_cons_eq ha (by omega : 0 < runLower (cs ++ y)) hdy]
            simp only [List.append_eq]
            rw [if_neg (by
              rw [Bool.and_eq_true, Bool.and_eq_true]
              rintro ⟨⟨hAy, -⟩, -⟩
              exact hA hAy)]
            simp only [Option.some.injEq]
            rw [hrla]
            omega
          by_cases hB : isUpperAZ u = true
          swap
          · -- the second-capital test already fails, with or without y
            left
            rw [entityMatchAt_cons_eq ha (by omega : 0 < runLower (cs ++ y)) hdy]
            simp only [List.append_eq]
            rw [if_neg (by
              rw [Bool.and_eq_true, Bool.and_eq_true]
              rintro ⟨⟨-, hBy⟩, -⟩
              exact hB hBy)]
            simp only [Option.some.injEq]
            rw [hrla]
            omega
          -- the separator and second capital are present, so the
          -- condition failed on the empty lowercase run
          have hC : runLower rest2 = 0 := by
            by_contra hC
            exact hcond (by
              rw [Bool.and_eq_true, Bool.and_eq_true]
              exact ⟨⟨hA, hB⟩, by simp [Nat.pos_of_ne_zero, hC]⟩)
          rcases rest2 with _ | ⟨e, rest3⟩
          · -- nothing after the second capital: tail scans to zero
            right
            have : cs.drop (l - 1) = [sep, u] := by
              rw [show l - 1 = runLower cs from by omega, hrest]
            rw [this, entityCount_cons_not_upper _ (sep_not_upper hA),
              entityCount_singleton]
          · -- a non-lowercase character follows the second capital
            left
            have he : isLowerAZ e = false := by
              rw [runLower] at hC
              by_contra hne
              rw [if_pos (by simpa using hne)] at hC
              omega
            rw [entityMatchAt_cons_eq ha (by omega : 0 < runLower (cs ++ y)) hdy]
            simp only [List.append_eq]
            rw [if_neg (by
              rw [Bool.and_eq_true, Bool.and_eq_true]
              rintro ⟨-, hcy⟩
              rw [decide_eq_true_iff, List.cons_append, runLower,
                if_neg (by simp [he])] at hcy
              omega)]
            simp only [Option.some.injEq]
            rw [hrla]
            omega
  · rw [if_neg hr] at h
    by_cases hup : 0 < runUpper cs
    · rw [if_pos hup] at h
      simp only [Option.some.injEq] at h
      by_cases hfull : runUpper cs = cs.length
      · right
        have : cs.drop (l - 1) = [] := by
          apply List.drop_eq_nil_of_le
          omega
        rw [this, entityCount_nil]
      · left
        have hne : cs ≠ [] := by
          intro hnil
          rw [hnil] at hup
          simp [runUpper] at hup
        have hr0 : runLower cs = 0 := by omega
        have hrly : runLower (cs ++ y) = 0 := by
          rw [runLower_append, if_neg (by
            rw [hr0]
            intro h0
            exact hne (List.eq_nil_of_length_eq_zero h0.symm)), hr0]
        have hruy : runUpper (cs ++ y) = runUpper cs := by
          rw [runUpper_append, if_neg hfull]
        unfold entityMatchAt
        dsimp only
        rw [if_pos ha, if_neg (by rw [hrly]; simp), if_pos (by rw [hruy]; omega)]
        simp only [Option.some.injEq]
        rw [hruy]
        omega
    · rw [if_neg hup] at h
      exact absurd h (by simp)

theorem entityMatchAt_append_some {c : Char} {cs : List Char} {l : ℕ}
    (y : List Char) (h : entityMatchAt (c :: cs) = some l) :
    ∃ m, entityMatchAt (c :: (cs ++ y)) = some m := by
  have ha : isUpperAZ c = true := by
    by_contra hna
    rw [entityMatchAt_cons_not_upper cs (by simpa using hna)] at h
    exact absurd h (by simp)
  by_cases hry : 0 < runLower (cs ++ y)
  · unfold entityMatchAt
    dsimp only
    rw [if_pos ha, if_pos hry]
    rcases hdy : (cs ++ y).drop (runLower (cs ++ y)) with _ | ⟨sep, rest1⟩
    · exact ⟨_, rfl⟩
    · rcases rest1 with _ | ⟨u, rest2⟩
      · exact ⟨_, rfl⟩
      · dsimp only
        by_cases hcond : ((sep == ' ' || sep == '.') && isUpperAZ u &&
            decide (0 < runLower rest2)) = true
        · rw [if_pos hcond]
          exact ⟨_, rfl⟩
        · rw [if_neg hcond]
          exact ⟨_, rfl⟩
  · -- the lowercase run of cs ++ y is empty, so it was empty in cs too
    have hr0 : runLower cs = 0 := by
      rw [runLower_append] at hry
      by_cases hfull : runLower cs = cs.length
      · rw [if_pos hfull] at hry
        omega
      · rw [if_neg hfull] at hry
        omega
    unfold entityMatchAt at h
    dsimp only at h
    rw [if_pos ha, if_neg (by omega)] at h
    by_cases hup : 0 < runUpper cs
    · have hupy : 0 < runUpper (cs ++ y) := by
        rw [runUpper_append]
        by_cases hfull : runUpper cs = cs.length
        · rw [if_pos hfull]
          omega
        · rw [if_neg hfull]
          omega
      unfold entityMatchAt
      dsimp only
      rw [if_pos ha, if_neg (by omega), if_pos hupy]
      exact ⟨_, rfl⟩
    · rw [if_neg hup] at h
      exact absurd h (by simp)

/-! Right extension: appending any suffix cannot decrease the count. -/

theorem entityCount_le_append_right : ∀ s y : List Char,
    entityCount s ≤ entityCount (s ++ y) := by
  have key : ∀ n, ∀ s y : List Char, s.length ≤ n →
      entityCount s ≤ entityCount (s ++ y) := by
    intro n
    induction n using Nat.strong_induction_on with
    | _ n IHn =>
      intro s y hlen
      cases s with
      | nil =>
        rw [List.nil_append, entityCount_nil]
        exact Nat.zero_le _
      | cons c cs =>
        simp only [List.length_cons] at hlen
        cases hm : entityMatchAt (c :: cs) with
        | none =>
          rw [entityCount_cons_none hm]
          have h1 : entityCount cs ≤ entityCount (cs ++ y) := by
            cases n with
            | zero => omega
            | succ m => exact IHn m (by omega) cs y (by omega)
          calc entityCount cs ≤ entityCount (cs ++ y) := h1
            _ ≤ entityCount ([c] ++ (cs ++ y)) := entityCount_le_append_left [c] _
            _ = entityCount ((c :: cs) ++ y) := by simp
        | some l =>
          rw [entityCount_cons_some hm]
          rcases entityMatchAt_append_dichotomy y hm with hD | hD
          · rw [List.cons_append, entityCount_cons_some hD]
            have hsub := entityMatchAt_sub_le hm
            rw [List.drop_append_of_le_length hsub]
            have h1 : entityCount (cs.drop (l - 1)) ≤
                entityCount (cs.drop (l - 1) ++ y) := by
              cases n with
              | zero => omega
              | succ m =>
                have hdl : (cs.drop (l - 1)).length ≤ cs.length := by simp
                exact IHn m (by omega) (cs.drop (l - 1)) y (by omega)
            omega
          · rw [hD]
            obtain ⟨m, hm2⟩ := entityMatchAt_append_some y hm
            rw [List.cons_append, entityCount_cons_some hm2]
            omega
  intro s y
  exact key s.length s y (le_refl _)

/-! Monotonicity of the entity count under contiguous substrings. -/

theorem entityCount_infix_mono {s q : List Char} (h : s <:+: q) :
    entityCount s ≤ entityCount q := by
  obtain ⟨x, y, rfl⟩ := h
  calc entityCount s ≤ entityCount (s ++ y) := entityCount_le_append_right s y
    _ ≤ entityCount (x ++ (s ++ y)) := entityCount_le_append_left x (s ++ y)
    _ = entityCount (x ++ s ++ y) := by rw [List.append_assoc]

/-! Monotonicity of the remaining complexity components. -/

theorem countAnd_le_cons (a : Char) (t : List Char) : countAnd t ≤ countAnd (a :: t) := by
  rcases t with _ | ⟨b, t1⟩
  · simp [countAnd]
  rcases t1 with _ | ⟨c, rest⟩
  · simp [countAnd]
  rw [countAnd]
  by_cases hcond : (a == 'a' && b == 'n' && c == 'd') = true
  · rw [if_pos hcond]
    rw [Bool.and_eq_true, Bool.and_eq_true, beq_iff_eq, beq_iff_eq, beq_iff_eq] at hcond
    obtain ⟨⟨rfl, rfl⟩, rfl⟩ := hcond
    rcases rest with _ | ⟨e, rest2⟩
    · simp [countAnd]
    rcases rest2 with _ | ⟨f, rest3⟩
    · simp [countAnd]
    rw [countAnd, if_neg (by simp), countAnd, if_neg (by simp)]
    omega
  · rw [if_neg hcond]

theorem countAnd_le_append_right : ∀ t y : List Char, countAnd t ≤ countAnd (t ++ y) := by
  have key : ∀ n, ∀ t y : List Char, t.length ≤ n → countAnd t ≤ countAnd (t ++ y) := by
    intro n
    induction n using Nat.strong_induction_on with
    | _ n IHn =>
      intro t y hlen
      rcases t with _ | ⟨a, t1⟩
      · simp [countAnd]
      rcases t1 with _ | ⟨b, t2⟩
      · simp [countAnd]
      rcases t2 with _ | ⟨c, rest⟩
      · simp [countAnd]
      simp only [List.length_cons] at hlen
      simp only [List.cons_append, countAnd]
      by_cases hcond : (a == 'a' && b == 'n' && c == 'd') = true
      · rw [if_pos hcond, if_pos hcond]
        have h1 : countAnd rest ≤ countAnd (rest ++ y) := by
          cases n with
          | zero => omega
          | succ m => exact IHn m (by omega) rest y (by omega)
        simp only [List.append_eq]
        omega
      · rw [if_neg hcond, if_neg hcond]
        cases n with
        | zero => omega
        | succ m =>
          have := IHn m (by omega) (b :: c :: rest) y (by simp; omega)
          simpa using this
  intro t y
  exact key t.length t y (le_refl _)

theorem countAnd_infix_mono {s q : List Char} (h : s <:+: q) : countAnd s ≤ countAnd q := by
  obtain ⟨x, y, rfl⟩ := h
  have h1 : countAnd s ≤ countAnd (s ++ y) := countAnd_le_append_right s y
  have h2 : ∀ x1 : List Char, countAnd (s ++ y) ≤ countAnd (x1 ++ (s ++ y)) := by
    intro x1
    induction x1 with
    | nil => simp
    | cons a t ih => exact le_trans ih (countAnd_le_cons a (t ++ (s ++ y)))
  calc countAnd s ≤ countAnd (s ++ y) := h1
    _ ≤ countAnd (x ++ (s ++ y)) := h2 x
    _ = countAnd (x ++ s ++ y) := by rw [List.append_assoc]

theorem strIn_iff_infixOf (pat : List Char) : ∀ l : List Char,
    strIn pat l = true ↔ pat <:+: l := by
  intro l
  induction l with
  | nil =>
    rw [strIn]
    constructor
    · intro h
      rw [List.isEmpty_iff] at h
      simp [h]
    · intro h
      rw [List.isEmpty_iff]
      simpa using List.sublist_nil.mp h.sublist
  | cons c cs ih =>
    rw [strIn, Bool.or_eq_true, ih]
    constructor
    · rintro (h | h)
      · exact (List.isPrefixOf_iff_prefix.mp h).isInfix
      · exact h.trans (List.infix_cons_iff.mpr (Or.inr (List.infix_refl cs)))
    · intro h
      rcases List.infix_cons_iff.mp h with h | h
      · exact Or.inl (List.isPrefixOf_iff_prefix.mpr h)
      · exact Or.inr h

/-- C9: the complexity score is monotone under contiguous substrings:
for every query `q` and every contiguous substring `s` of `q`, the
`complexity_score` of `s` is at most that of `q`.  Entities (leftmost
non-overlapping regex matches), aspects (comma, semicolon and `and`
counts) and complexity-keyword counts cannot decrease when content is
added on either side, and the score is a monotone function of the three
counts. -/
theorem C9_complexity_score_monotone (q s : String) (h : s.data <:+: q.data) :
    (AutoTuner.analyze_question_complexity s).complexity_score ≤
      (AutoTuner.analyze_question_complexity q).complexity_score := by
  have hE : entityCount s.data ≤ entityCount q.data := entityCount_infix_mono h
  have hAsp : s.data.count ',' + s.data.count ';' + countAnd s.data ≤
      q.data.count ',' + q.data.count ';' + countAnd q.data := by
    have h1 : s.data.count ',' ≤ q.data.count ',' :=
      List.Sublist.count_le h.sublist ','
    have h2 : s.data.count ';' ≤ q.data.count ';' :=
      List.Sublist.count_le h.sublist ';'
    have h3 : countAnd s.data ≤ countAnd q.data := countAnd_infix_mono h
    omega
  have hK : complexity_keywords.countP (fun w => strIn w.data (pyLower s)) ≤
      complexity_keywords.countP (fun w => strIn w.data (pyLower q)) := by
    apply List.countP_mono_left
    intro w _ hw
    rw [strIn_iff_infixOf] at hw ⊢
    exact hw.trans (List.IsInfix.map pyLowerChar h)
  have hE' : ((entityCount s.data : ℕ) : ℚ) ≤ ((entityCount q.data : ℕ) : ℚ) := by
    exact_mod_cast hE
  have hAsp' : ((s.data.count ',' + s.data.count ';' + countAnd s.data : ℕ) : ℚ) ≤
      ((q.data.count ',' + q.data.count ';' + countAnd q.data : ℕ) : ℚ) := by
    exact_mod_cast hAsp
  have hK' : ((complexity_keywords.countP (fun w => strIn w.data (pyLower s)) : ℕ) : ℚ) ≤
      ((complexity_keywords.countP (fun w => strIn w.data (pyLower q)) : ℕ) : ℚ) := by
    exact_mod_cast hK
  unfold AutoTuner.analyze_question_complexity
  dsimp only
  apply min_le_min (le_refl (1 : ℚ))
  rw [div_le_div_iff_of_pos_right (by norm_num : (0 : ℚ) < 10)]
  nlinarith [hE', hAsp', hK']

theorem C9_complexity_score_monotone_witness :
    (("IBM and Google" : String).data <:+:
      ("Compare IBM and Google Cloud, analyze trends" : String).data) ∧
    (AutoTuner.analyze_question_complexity "IBM and Google").complexity_score ≤
      (AutoTuner.analyze_question_complexity
        "Compare IBM and Google Cloud, analyze trends").complexity_score :=
  ⟨by decide,
    C9_complexity_score_monotone "Compare IBM and Google Cloud, analyze trends"
      "IBM and Google" (by decide)⟩
